import Mathlib

/-!
# Verification of the PyPI scraper pipeline (`pypi_scraper/pypi_scraper.py`)

Shallow embedding of the fetch-parse-persist pipeline of `PyPIScraper`:

* `retryFetch` models the `@retry(retry_on_exception=_retry_if_requests_connection_error,
  stop_max_attempt_number=5)` decorator applied to the two fetchers, together with
  their `try/except` bodies;
* `Json`, `dumps` model the metadata documents and Python's
  `json.dump(d, f, indent=2, sort_keys=True, separators=(',', ':'))`
  (JSON numbers are modelled as integers; floating-point serialization is out of
  scope of the claims, and strings are valid Unicode, as Lean's `Char` requires);
* `loads` models `json.load` (the deserializer), used to state the round-trip
  property of the persister's canonical serialization;
* `saveToDisk`, `getListOfPackagesToRetrieve`, `getJsonDataForPackage`,
  `getListOfExistingPackages` and `run` model the corresponding methods, with the
  network, the HTML parse result and the filesystem as explicit inputs (`World`).
-/

/-- A JSON-decodable value, as produced by `response.json()`. Numbers are modelled
as integers (the claims do not involve floating point); object members are kept in
insertion order, as a Python `dict` does. -/
inductive Json where
  | null
  | bool (b : Bool)
  | int (n : Int)
  | str (s : String)
  | arr (elems : List Json)
  | obj (members : List (String × Json))

mutual

/-- Node count of a value (used as fuel bound and induction measure). -/
def jsize : Json → Nat
  | .null => 1
  | .bool _ => 1
  | .int _ => 1
  | .str _ => 1
  | .arr xs => 1 + jsizeList xs
  | .obj kvs => 1 + jsizeKvs kvs

/-- Node count of an array's elements. -/
def jsizeList : List Json → Nat
  | [] => 0
  | x :: xs => 1 + jsize x + jsizeList xs

/-- Node count of an object's member values. -/
def jsizeKvs : List (String × Json) → Nat
  | [] => 0
  | kv :: kvs => 1 + jsize kv.2 + jsizeKvs kvs

end

theorem jsize_pos : ∀ d : Json, 1 ≤ jsize d := by
  intro d; cases d <;> simp [jsize]

/-! ## Python `str`/decimal rendering helpers -/

/-- The character for decimal digit `n % 10`. -/
def digitChar (n : Nat) : Char := Char.ofNat (48 + n % 10)

/-- Decimal digit characters of `n`, most significant first, prepended to `acc`
(models Python's `repr` of a non-negative `int`). Structural on a fuel counter so
that it evaluates by kernel reduction; `natRepr` supplies enough fuel. -/
def natReprAux : Nat → Nat → List Char → List Char
  | 0, _, acc => acc
  | fuel + 1, n, acc =>
    if n < 10 then digitChar n :: acc
    else natReprAux fuel (n / 10) (digitChar n :: acc)

/-- Decimal digit characters of a natural number, most significant first. -/
def natRepr (n : Nat) : List Char := natReprAux (n + 1) n []

/-- Characters of Python's `repr` of an `int`: optional minus, then digits. -/
def intRepr (i : Int) : List Char :=
  (if i < 0 then ['-'] else []) ++ natRepr i.natAbs

example : intRepr 1230 = ['1', '2', '3', '0'] := by decide
example : intRepr (-7) = ['-', '7'] := by decide

/-! ## Key ordering

Python's `sorted` on `dict` keys compares strings lexicographically by code
point; `charsLe`/`keyLe` model that order (executably, by structural recursion). -/

/-- Code-point lexicographic `≤` on character lists (Python's `str` order). -/
def charsLe : List Char → List Char → Bool
  | [], _ => true
  | _ :: _, [] => false
  | a :: as, b :: bs =>
    if a = b then charsLe as bs else decide (a.toNat < b.toNat)

/-- Python's `≤` on strings (code-point lexicographic). -/
def keyLe (a b : String) : Bool := charsLe a.data b.data

/-- Python's `<` on strings: `≤` and different. -/
def keyLt (a b : String) : Bool := keyLe a b && !(a == b)

/-- The member ordering `json.dump(..., sort_keys=True)` sorts by: compare keys. -/
def keyPairLe (a b : String × Json) : Prop := keyLe a.1 b.1 = true

instance : DecidableRel keyPairLe := fun a b => Bool.decEq (keyLe a.1 b.1) true

theorem char_eq_of_toNat_eq {a b : Char} (h : a.toNat = b.toNat) : a = b :=
  Char.ext (UInt32.ext h)

theorem charsLe_refl : ∀ l : List Char, charsLe l l = true := by
  intro l
  induction l with
  | nil => rfl
  | cons a as ih => simp [charsLe, ih]

theorem charsLe_total : ∀ l m : List Char, charsLe l m = true ∨ charsLe m l = true := by
  intro l
  induction l with
  | nil => intro m; left; rfl
  | cons a as ih =>
    intro m
    cases m with
    | nil => right; rfl
    | cons b bs =>
      by_cases hab : a = b
      · subst hab
        rcases ih bs with h | h
        · left; simpa [charsLe] using h
        · right; simpa [charsLe] using h
      · have hba : ¬ b = a := fun h => hab h.symm
        rcases Nat.lt_or_ge a.toNat b.toNat with h | h
        · left; simp [charsLe, hab, h]
        · right
          have : b.toNat < a.toNat := by
            rcases Nat.lt_or_ge b.toNat a.toNat with h' | h'
            · exact h'
            · exact absurd (char_eq_of_toNat_eq (by omega)) hab
          simp [charsLe, hba, this]

theorem charsLe_antisymm : ∀ l m : List Char,
    charsLe l m = true → charsLe m l = true → l = m := by
  intro l
  induction l with
  | nil =>
    intro m _ hml
    cases m with
    | nil => rfl
    | cons b bs => simp [charsLe] at hml
  | cons a as ih =>
    intro m hlm hml
    cases m with
    | nil => simp [charsLe] at hlm
    | cons b bs =>
      by_cases hab : a = b
      · subst hab
        have h1 : charsLe as bs = true := by simpa [charsLe] using hlm
        have h2 : charsLe bs as = true := by simpa [charsLe] using hml
        rw [ih bs h1 h2]
      · have hba : ¬ b = a := fun h => hab h.symm
        have h1 : a.toNat < b.toNat := by simpa [charsLe, hab] using hlm
        have h2 : b.toNat < a.toNat := by simpa [charsLe, hba] using hml
        omega

theorem charsLe_trans : ∀ l m n : List Char,
    charsLe l m = true → charsLe m n = true → charsLe l n = true := by
  intro l
  induction l with
  | nil => intro m n _ _; rfl
  | cons a as ih =>
    intro m n hlm hmn
    cases m with
    | nil => simp [charsLe] at hlm
    | cons b bs =>
      cases n with
      | nil => simp [charsLe] at hmn
      | cons c cs =>
        by_cases hab : a = b
        · by_cases hbc : b = c
          · have h1 : charsLe as bs = true := by simpa [charsLe, hab] using hlm
            have h2 : charsLe bs cs = true := by simpa [charsLe, hbc] using hmn
            have hac : a = c := hab.trans hbc
            simp [charsLe, hac, ih bs cs h1 h2]
          · have h2 : b.toNat < c.toNat := by simpa [charsLe, hbc] using hmn
            have hac : ¬ a = c := fun h => hbc (hab.symm.trans h)
            have hlt : a.toNat < c.toNat := by rw [hab]; exact h2
            simp [charsLe, hac, hlt]
        · by_cases hbc : b = c
          · have h1 : a.toNat < b.toNat := by simpa [charsLe, hab] using hlm
            have hac : ¬ a = c := fun h => hab (h.trans hbc.symm)
            have hlt : a.toNat < c.toNat := by rw [← hbc]; exact h1
            simp [charsLe, hac, hlt]
          · have h1 : a.toNat < b.toNat := by simpa [charsLe, hab] using hlm
            have h2 : b.toNat < c.toNat := by simpa [charsLe, hbc] using hmn
            have hac : ¬ a = c := fun h => by
              rw [h] at h1; omega
            have hlt : a.toNat < c.toNat := by omega
            simp [charsLe, hac, hlt]

theorem keyLe_refl (s : String) : keyLe s s = true := charsLe_refl s.data

theorem keyLe_total (s t : String) : keyLe s t = true ∨ keyLe t s = true :=
  charsLe_total s.data t.data

theorem keyLe_antisymm {s t : String} (h1 : keyLe s t = true) (h2 : keyLe t s = true) :
    s = t := by
  cases s with
  | mk ld =>
    cases t with
    | mk md => exact congrArg String.mk (charsLe_antisymm ld md h1 h2)

theorem keyLe_trans {s t u : String} (h1 : keyLe s t = true) (h2 : keyLe t u = true) :
    keyLe s u = true := charsLe_trans s.data t.data u.data h1 h2

/-! ## String escaping (`json.dump`'s default `ensure_ascii=True`)

Python escapes `\`, `"`, the control shortcuts `\b \t \n \f \r`, every other
character below `0x20` and every character above `0x7e` (as `\uXXXX`, using a
surrogate pair above `0xFFFF`); characters in `0x20..0x7e` pass through. -/

/-- Lowercase hex digit character for `n < 16`. -/
def toHexDigit (n : Nat) : Char :=
  if n < 10 then Char.ofNat (48 + n) else Char.ofNat (87 + n)

/-- Four lowercase hex digits of `n < 0x10000`, most significant first. -/
def toHex4 (n : Nat) : List Char :=
  [toHexDigit (n / 4096 % 16), toHexDigit (n / 256 % 16),
   toHexDigit (n / 16 % 16), toHexDigit (n % 16)]

/-- One character as `json.dump` (with `ensure_ascii=True`) writes it. -/
def escapeChar (c : Char) : List Char :=
  if c = '\\' then ['\\', '\\']
  else if c = '"' then ['\\', '"']
  else if c = '\n' then ['\\', 'n']
  else if c = '\r' then ['\\', 'r']
  else if c = '\t' then ['\\', 't']
  else if c.toNat = 8 then ['\\', 'b']
  else if c.toNat = 12 then ['\\', 'f']
  else if 32 ≤ c.toNat ∧ c.toNat ≤ 126 then [c]
  else if c.toNat < 65536 then '\\' :: 'u' :: toHex4 c.toNat
  else
    ('\\' :: 'u' :: toHex4 (55296 + (c.toNat - 65536) / 1024)) ++
    ('\\' :: 'u' :: toHex4 (56320 + (c.toNat - 65536) % 1024))

/-- A character run, escaped. -/
def escapeList : List Char → List Char
  | [] => []
  | c :: cs => escapeChar c ++ escapeList cs

example : escapeList ['a', '"', '\n', 'é'] =
    ['a', '\\', '"', '\\', 'n', '\\', 'u', '0', '0', 'e', '9'] := by decide
example : escapeList ['𝄞'] = ['\\', 'u', 'd', '8', '3', '4', '\\', 'u', 'd', 'd', '1', 'e'] := by
  decide

/-! ## The serializer: `json.dump(d, f, indent=2, sort_keys=True, separators=(',', ':'))`

With `indent=2` Python writes each container item on its own line, indented two
spaces per nesting level; the item separator `','` ends the previous line, the
key separator is `':'` with no space, and empty containers print as `[]`/`{}`.
`sort_keys=True` sorts every object's members by key, which `sortAll` performs
up front (the result is identical to sorting at each node during encoding). -/

/-- The newline plus indentation that precedes an item at nesting level `lvl`. -/
def nlIndent (lvl : Nat) : List Char := '\n' :: List.replicate (2 * lvl) ' '

mutual

/-- `sortAll` recursively sorts every object's members by key: the value that
`json.dump(..., sort_keys=True)` effectively serializes. -/
def sortAll : Json → Json
  | .null => .null
  | .bool b => .bool b
  | .int n => .int n
  | .str s => .str s
  | .arr xs => .arr (sortAllList xs)
  | .obj kvs => .obj (List.insertionSort keyPairLe (sortAllKvs kvs))

def sortAllList : List Json → List Json
  | [] => []
  | x :: xs => sortAll x :: sortAllList xs

def sortAllKvs : List (String × Json) → List (String × Json)
  | [] => []
  | kv :: kvs => (kv.1, sortAll kv.2) :: sortAllKvs kvs

end

mutual

/-- Characters of a (key-sorted) value at nesting level `lvl`, exactly as
`json.dump(d, f, indent=2, separators=(',', ':'))` writes them. -/
def dumpVal : Nat → Json → List Char
  | _, .null => ['n', 'u', 'l', 'l']
  | _, .bool true => ['t', 'r', 'u', 'e']
  | _, .bool false => ['f', 'a', 'l', 's', 'e']
  | _, .int n => intRepr n
  | _, .str s => '"' :: (escapeList s.data ++ ['"'])
  | _, .arr [] => ['[', ']']
  | lvl, .arr (x :: xs) =>
    '[' :: (nlIndent (lvl + 1) ++ (dumpVal (lvl + 1) x ++
      (dumpItems (lvl + 1) xs ++ (nlIndent lvl ++ [']']))))
  | _, .obj [] => ['{', '}']
  | lvl, .obj (kv :: kvs) =>
    '{' :: (nlIndent (lvl + 1) ++ (dumpMember (lvl + 1) kv ++
      (dumpMembers (lvl + 1) kvs ++ (nlIndent lvl ++ ['}']))))

/-- Second and later array items: `','`, newline-indent, the item. -/
def dumpItems : Nat → List Json → List Char
  | _, [] => []
  | lvl, x :: xs => ',' :: (nlIndent lvl ++ (dumpVal lvl x ++ dumpItems lvl xs))

/-- One object member: quoted escaped key, `':'`, the value. -/
def dumpMember : Nat → String × Json → List Char
  | lvl, (k, v) => '"' :: (escapeList k.data ++ ('"' :: (':' :: dumpVal lvl v)))

/-- Second and later object members. -/
def dumpMembers : Nat → List (String × Json) → List Char
  | _, [] => []
  | lvl, kv :: kvs => ',' :: (nlIndent lvl ++ (dumpMember lvl kv ++ dumpMembers lvl kvs))

end

/-- The canonical serialization the Disk Persister writes:
`json.dumps(d, indent=2, sort_keys=True, separators=(',', ':'))`. -/
def dumps (d : Json) : String := String.mk (dumpVal 0 (sortAll d))

example : dumps (.obj []) = String.mk ['{', '}'] := rfl

example : dumps (.obj [("b", .int 1), ("a", .arr [.null, .str "x"])]) =
    String.mk (['{', '\n', ' ', ' ', '"', 'a', '"', ':', '[', '\n',
      ' ', ' ', ' ', ' ', 'n', 'u', 'l', 'l', ',', '\n', ' ', ' ', ' ', ' ', '"', 'x', '"',
      '\n', ' ', ' ', ']', ',', '\n', ' ', ' ', '"', 'b', '"', ':', '1', '\n', '}']) := by
  decide

/-! ## The deserializer: `json.load`

A standard recursive-descent JSON reader, used to state the persister's
round-trip property. It skips the whitespace `json.load` accepts, reads the
escape forms the serializer above emits (including surrogate pairs), and reads
integer numbers (the modelled number fragment). Recursion is structural on a
fuel counter; `loads` supplies input length plus one, which the round-trip proof
shows is always enough for serialized output. -/

/-- JSON whitespace (the characters `json.load` skips between tokens). -/
def isWs (c : Char) : Bool := c = ' ' || c = '\n' || c = '\t' || c = '\r'

/-- Drop leading JSON whitespace. -/
def skipWs : List Char → List Char
  | [] => []
  | c :: cs => if isWs c then skipWs cs else c :: cs

/-- Is `c` a decimal digit? -/
def isDigit (c : Char) : Bool := 48 ≤ c.toNat && c.toNat ≤ 57

/-- Value of a hex digit character (either case), if it is one. -/
def hexVal (c : Char) : Option Nat :=
  if 48 ≤ c.toNat ∧ c.toNat ≤ 57 then some (c.toNat - 48)
  else if 97 ≤ c.toNat ∧ c.toNat ≤ 102 then some (c.toNat - 87)
  else if 65 ≤ c.toNat ∧ c.toNat ≤ 70 then some (c.toNat - 55)
  else none

/-- Read four hex digits. -/
def parseHex4 : List Char → Option (Nat × List Char)
  | a :: b :: c :: d :: rest =>
    match hexVal a, hexVal b, hexVal c, hexVal d with
    | some va, some vb, some vc, some vd =>
      some (((va * 16 + vb) * 16 + vc) * 16 + vd, rest)
    | _, _, _, _ => none
  | _ => none

/-- The character a simple (single-letter) escape stands for, if the letter is
one of the eight `json.load` accepts. -/
def unescape (e : Char) : Option Char :=
  if e = '"' then some '"'
  else if e = '\\' then some '\\'
  else if e = '/' then some '/'
  else if e = 'n' then some '\n'
  else if e = 'r' then some '\r'
  else if e = 't' then some '\t'
  else if e = 'b' then some (Char.ofNat 8)
  else if e = 'f' then some (Char.ofNat 12)
  else none

/-- Prepend a character to the string under construction, if reading succeeded. -/
def consFst (c : Char) : Option (List Char × List Char) → Option (List Char × List Char)
  | some (s, r) => some (c :: s, r)
  | none => none

/-- Read a string body after the opening quote, undoing the escapes; a
lone-surrogate escape is rejected (such a string is not valid Unicode, which
Lean's `Char` cannot represent, and the serializer never emits one). -/
def parseStrAux : Nat → List Char → Option (List Char × List Char)
  | 0, _ => none
  | _ + 1, [] => none
  | fuel + 1, c :: cs =>
    if c = '"' then some ([], cs)
    else if c = '\\' then
      match cs with
      | [] => none
      | 'u' :: cs2 =>
        match parseHex4 cs2 with
        | none => none
        | some (n, cs3) =>
          if 55296 ≤ n ∧ n < 56320 then
            match cs3 with
            | '\\' :: 'u' :: cs4 =>
              match parseHex4 cs4 with
              | none => none
              | some (m, cs5) =>
                if 56320 ≤ m ∧ m < 57344 then
                  consFst (Char.ofNat (65536 + (n - 55296) * 1024 + (m - 56320)))
                    (parseStrAux fuel cs5)
                else none
            | _ => none
          else if 56320 ≤ n ∧ n < 57344 then none
          else consFst (Char.ofNat n) (parseStrAux fuel cs3)
      | e :: cs2 =>
        match unescape e with
        | some ch => consFst ch (parseStrAux fuel cs2)
        | none => none
    else if c.toNat < 32 then none
    else consFst c (parseStrAux fuel cs)

/-- Split a leading run of decimal digits from the input. -/
def spanDigits : List Char → List Char × List Char
  | [] => ([], [])
  | c :: cs =>
    if isDigit c then
      let p := spanDigits cs
      (c :: p.1, p.2)
    else ([], c :: cs)

/-- Numeric value of a digit run. -/
def digitsToNat (ds : List Char) : Nat :=
  ds.foldl (fun acc c => acc * 10 + (c.toNat - 48)) 0

/-- Read an integer: optional minus sign, then a digit run. -/
def parseNumber (input : List Char) : Option (Int × List Char) :=
  match input with
  | [] => none
  | c :: cs =>
    if c = '-' then
      match spanDigits cs with
      | ([], _) => none
      | (ds, r) => some (-(digitsToNat ds : Int), r)
    else
      match spanDigits (c :: cs) with
      | ([], _) => none
      | (ds, r) => some ((digitsToNat ds : Int), r)

mutual

/-- Read one JSON value (after optional whitespace). -/
def parseValue : Nat → List Char → Option (Json × List Char)
  | 0, _ => none
  | fuel + 1, input =>
    match skipWs input with
    | [] => none
    | c :: cs =>
      if c = 'n' then
        match cs with
        | 'u' :: 'l' :: 'l' :: r => some (.null, r)
        | _ => none
      else if c = 't' then
        match cs with
        | 'r' :: 'u' :: 'e' :: r => some (.bool true, r)
        | _ => none
      else if c = 'f' then
        match cs with
        | 'a' :: 'l' :: 's' :: 'e' :: r => some (.bool false, r)
        | _ => none
      else if c = '"' then
        match parseStrAux (cs.length + 1) cs with
        | some (s, r) => some (.str (String.mk s), r)
        | none => none
      else if c = '[' then
        match skipWs cs with
        | [] => none
        | c2 :: cs2 =>
          if c2 = ']' then some (.arr [], cs2)
          else
            match parseValue fuel (c2 :: cs2) with
            | some (v, r) => parseArrayRest fuel [v] r
            | none => none
      else if c = '{' then
        match skipWs cs with
        | [] => none
        | c2 :: cs2 =>
          if c2 = '}' then some (.obj [], cs2)
          else
            match parseMember fuel (c2 :: cs2) with
            | some (kv, r) => parseObjRest fuel [kv] r
            | none => none
      else if c = '-' || isDigit c then
        match parseNumber (c :: cs) with
        | some (i, r) => some (.int i, r)
        | none => none
      else none

/-- After a value inside `[...]`: expect `,` and another value, or `]`. -/
def parseArrayRest : Nat → List Json → List Char → Option (Json × List Char)
  | 0, _, _ => none
  | fuel + 1, acc, input =>
    match skipWs input with
    | [] => none
    | c :: cs =>
      if c = ']' then some (.arr acc.reverse, cs)
      else if c = ',' then
        match parseValue fuel cs with
        | some (v, r) => parseArrayRest fuel (v :: acc) r
        | none => none
      else none

/-- One `"key":value` member. -/
def parseMember : Nat → List Char → Option ((String × Json) × List Char)
  | 0, _ => none
  | fuel + 1, input =>
    match skipWs input with
    | [] => none
    | c :: cs =>
      if c = '"' then
        match parseStrAux (cs.length + 1) cs with
        | none => none
        | some (k, r) =>
          match skipWs r with
          | [] => none
          | c2 :: cs2 =>
            if c2 = ':' then
              match parseValue fuel cs2 with
              | some (v, r2) => some ((String.mk k, v), r2)
              | none => none
            else none
      else none

/-- After a member inside `{...}`: expect `,` and another member, or `}`. -/
def parseObjRest : Nat → List (String × Json) → List Char → Option (Json × List Char)
  | 0, _, _ => none
  | fuel + 1, acc, input =>
    match skipWs input with
    | [] => none
    | c :: cs =>
      if c = '}' then some (.obj acc.reverse, cs)
      else if c = ',' then
        match parseMember fuel cs with
        | some (kv, r) => parseObjRest fuel (kv :: acc) r
        | none => none
      else none

end

/-- `json.load`: read one document, allowing trailing whitespace only. -/
def loads (s : String) : Option Json :=
  match parseValue (s.length + 1) s.data with
  | some (v, r) => if skipWs r = [] then some v else none
  | none => none

example : loads (dumps (.obj [("b", .int 1), ("a", .arr [.null, .str "x"])])) =
    some (.obj [("a", .arr [.null, .str "x"]), ("b", .int 1)]) := rfl

/-! ## Round-trip, part 1: numbers -/

theorem digit_spec (k : Nat) (h : k < 10) :
    isDigit (Char.ofNat (48 + k)) = true ∧ (Char.ofNat (48 + k)).toNat = 48 + k := by
  interval_cases k <;> exact ⟨by decide, by decide⟩

theorem digitChar_isDigit (n : Nat) : isDigit (digitChar n) = true :=
  (digit_spec (n % 10) (Nat.mod_lt _ (by omega))).1

theorem digitChar_toNat (n : Nat) : (digitChar n).toNat = 48 + n % 10 :=
  (digit_spec (n % 10) (Nat.mod_lt _ (by omega))).2

theorem natReprAux_acc (fuel : Nat) : ∀ n acc,
    natReprAux fuel n acc = natReprAux fuel n [] ++ acc := by
  induction fuel with
  | zero => intro n acc; rfl
  | succ f ih =>
    intro n acc
    by_cases h : n < 10
    · simp [natReprAux, h]
    · simp only [natReprAux, if_neg h]
      rw [ih (n / 10) (digitChar n :: acc), ih (n / 10) [digitChar n]]
      simp

theorem natReprAux_fuel : ∀ fuel n acc, n < fuel →
    natReprAux fuel n acc = natReprAux (n + 1) n acc := by
  intro fuel
  induction fuel using Nat.strong_induction_on with
  | _ fuel ih =>
    intro n acc h
    match fuel with
    | 0 => omega
    | f + 1 =>
      by_cases h10 : n < 10
      · simp [natReprAux, h10]
      · simp only [natReprAux, if_neg h10]
        have hd : n / 10 < n := Nat.div_lt_self (by omega) (by omega)
        rw [ih f (by omega) (n / 10) _ (by omega),
          ih n (by omega) (n / 10) _ (by omega)]

theorem natRepr_unfold (n : Nat) :
    natRepr n = (if n < 10 then [] else natRepr (n / 10)) ++ [digitChar n] := by
  by_cases h : n < 10
  · simp [natRepr, natReprAux, h]
  · have hd : n / 10 < n := Nat.div_lt_self (by omega) (by omega)
    rw [if_neg h]
    have step : natRepr n = natReprAux n (n / 10) [digitChar n] := by
      simp [natRepr, natReprAux, h]
    rw [step, natReprAux_fuel n (n / 10) [digitChar n] (by omega),
      natReprAux_acc (n / 10 + 1) (n / 10) [digitChar n]]
    rfl

theorem natRepr_ne_nil (n : Nat) : natRepr n ≠ [] := by
  rw [natRepr_unfold]; simp

theorem natRepr_digits (n : Nat) : ∀ c ∈ natRepr n, isDigit c = true := by
  induction n using Nat.strong_induction_on with
  | _ n ih =>
    rw [natRepr_unfold]
    intro c hc
    rw [List.mem_append] at hc
    rcases hc with hc | hc
    · by_cases h : n < 10
      · simp [h] at hc
      · exact ih (n / 10) (Nat.div_lt_self (by omega) (by omega)) c (by simpa [h] using hc)
    · rw [List.mem_singleton] at hc
      rw [hc]
      exact digitChar_isDigit n

theorem digitsToNat_natRepr (n : Nat) : digitsToNat (natRepr n) = n := by
  induction n using Nat.strong_induction_on with
  | _ n ih =>
    rw [natRepr_unfold]
    by_cases h : n < 10
    · simp [digitsToNat, digitChar_toNat, h]
    · have hd : n / 10 < n := Nat.div_lt_self (by omega) (by omega)
      have step : digitsToNat (natRepr (n / 10) ++ [digitChar n])
          = digitsToNat (natRepr (n / 10)) * 10 + ((digitChar n).toNat - 48) := by
        simp [digitsToNat, List.foldl_append]
      simp only [if_neg h, step, ih (n / 10) hd, digitChar_toNat]
      omega

/-- The first character of a rendered natural number is a digit. -/
theorem natRepr_head (n : Nat) :
    ∃ c t, natRepr n = c :: t ∧ isDigit c = true := by
  match h : natRepr n with
  | [] => exact absurd h (natRepr_ne_nil n)
  | c :: t => exact ⟨c, t, rfl, natRepr_digits n c (h ▸ List.mem_cons_self c t)⟩

/-- A remainder that cannot extend a digit run: empty or starting non-digit. -/
def digitDelim : List Char → Bool
  | [] => true
  | c :: _ => !isDigit c

theorem spanDigits_stop {rest : List Char} (h : digitDelim rest = true) :
    spanDigits rest = ([], rest) := by
  match rest with
  | [] => rfl
  | c :: t =>
    have : isDigit c = false := by simpa [digitDelim] using h
    simp [spanDigits, this]

theorem spanDigits_run (ds : List Char) (hds : ∀ c ∈ ds, isDigit c = true)
    (rest : List Char) (hrest : digitDelim rest = true) :
    spanDigits (ds ++ rest) = (ds, rest) := by
  induction ds with
  | nil => simpa using spanDigits_stop hrest
  | cons c t ih =>
    have hc : isDigit c = true := hds c (List.mem_cons_self c t)
    have ht := ih (fun x hx => hds x (List.mem_cons_of_mem c hx))
    simp [spanDigits, hc, ht]

theorem parseNumber_intRepr (i : Int) (rest : List Char) (h : digitDelim rest = true) :
    parseNumber (intRepr i ++ rest) = some (i, rest) := by
  obtain ⟨c, t, hrep, hc⟩ := natRepr_head i.natAbs
  have hspan : spanDigits (natRepr i.natAbs ++ rest) = (natRepr i.natAbs, rest) :=
    spanDigits_run _ (natRepr_digits _) rest h
  have hcm : ¬ c = '-' := by
    intro hcontra
    rw [hcontra] at hc
    exact absurd hc (by decide)
  have hspan' : spanDigits (natRepr i.natAbs ++ rest) = (c :: t, rest) := by
    rw [hspan, hrep]
  by_cases hi : i < 0
  · have harg : intRepr i ++ rest = '-' :: (natRepr i.natAbs ++ rest) := by
      simp [intRepr, hi]
    rw [harg]
    simp only [parseNumber]
    rw [if_pos trivial, hspan']
    simp only [← hrep, digitsToNat_natRepr]
    have hval : -((i.natAbs : Nat) : Int) = i := by omega
    rw [hval]
  · have harg : intRepr i ++ rest = c :: (t ++ rest) := by
      simp [intRepr, hi, hrep]
    rw [harg]
    have hspan2 : spanDigits (c :: (t ++ rest)) = (c :: t, rest) := by
      rw [show c :: (t ++ rest) = (c :: t) ++ rest from rfl, ← hrep]
      exact hspan
    simp only [parseNumber]
    rw [if_neg hcm, hspan2]
    simp only [← hrep, digitsToNat_natRepr]
    have hval : ((i.natAbs : Nat) : Int) = i := by omega
    rw [hval]

/-! ## Round-trip, part 2: strings -/

theorem hexVal_toHexDigit (d : Nat) (h : d < 16) : hexVal (toHexDigit d) = some d := by
  interval_cases d <;> decide

theorem parseHex4_toHex4 (n : Nat) (h : n < 65536) (z : List Char) :
    parseHex4 (toHex4 n ++ z) = some (n, z) := by
  have h1 := hexVal_toHexDigit (n / 4096 % 16) (Nat.mod_lt _ (by omega))
  have h2 := hexVal_toHexDigit (n / 256 % 16) (Nat.mod_lt _ (by omega))
  have h3 := hexVal_toHexDigit (n / 16 % 16) (Nat.mod_lt _ (by omega))
  have h4 := hexVal_toHexDigit (n % 16) (Nat.mod_lt _ (by omega))
  have harith : ((n / 4096 % 16 * 16 + n / 256 % 16) * 16 + n / 16 % 16) * 16 + n % 16 = n := by
    omega
  simp [toHex4, parseHex4, h1, h2, h3, h4, harith]

/-- Character code bounds of a valid `Char`: never a surrogate, below `0x110000`. -/
theorem char_toNat_bounds (c : Char) :
    c.toNat < 1114112 ∧ ¬ (55296 ≤ c.toNat ∧ c.toNat < 57344) := by
  have hdef : c.toNat = c.val.toNat := rfl
  rcases c.valid with h | h
  · exact ⟨by omega, by omega⟩
  · exact ⟨by omega, by omega⟩

/-- Reading a surrogate-pair escape yields the astral character it encodes. -/
theorem parseStrAux_surrogate (hi lo : Nat) (z : List Char) (f : Nat)
    (hhi : 55296 ≤ hi ∧ hi < 56320) (hlo : 56320 ≤ lo ∧ lo < 57344) :
    parseStrAux (f + 1) ('\\' :: 'u' :: (toHex4 hi ++ ('\\' :: 'u' :: (toHex4 lo ++ z))))
      = consFst (Char.ofNat (65536 + (hi - 55296) * 1024 + (lo - 56320))) (parseStrAux f z) := by
  have hhex1 := parseHex4_toHex4 hi (by omega) ('\\' :: 'u' :: (toHex4 lo ++ z))
  have hhex2 := parseHex4_toHex4 lo (by omega) z
  simp only [parseStrAux]
  rw [hhex1]
  simp [hhi, hlo, hhex2]

/-- Reading one escaped character prepends exactly that character. -/
theorem parseStrAux_escapeChar (c : Char) (z : List Char) (f : Nat) :
    parseStrAux (f + 1) (escapeChar c ++ z) = consFst c (parseStrAux f z) := by
  have hb := char_toNat_bounds c
  by_cases h1 : c = '\\'
  · subst h1; simp [escapeChar, parseStrAux, unescape]
  · by_cases h2 : c = '"'
    · subst h2; simp [escapeChar, parseStrAux, unescape]
    · by_cases h3 : c = '\n'
      · subst h3; simp [escapeChar, parseStrAux, unescape]
      · by_cases h4 : c = '\r'
        · subst h4; simp [escapeChar, parseStrAux, unescape]
        · by_cases h5 : c = '\t'
          · subst h5; simp [escapeChar, parseStrAux, unescape]
          · by_cases h6 : c.toNat = 8
            · have hc : c = Char.ofNat 8 := by
                rw [← h6]; exact (Char.ofNat_toNat c).symm
              subst hc
              simp [escapeChar, parseStrAux, unescape]
            · by_cases h7 : c.toNat = 12
              · have hc : c = Char.ofNat 12 := by
                  rw [← h7]; exact (Char.ofNat_toNat c).symm
                subst hc
                simp [escapeChar, parseStrAux, unescape]
              · by_cases h8 : 32 ≤ c.toNat ∧ c.toNat ≤ 126
                · have he : escapeChar c = [c] := by
                    simp [escapeChar, h1, h2, h3, h4, h5, h6, h7, h8]
                  rw [he]
                  have hlt : ¬ c.toNat < 32 := by omega
                  simp [parseStrAux, h1, h2, hlt]
                · by_cases h9 : c.toNat < 65536
                  · have he : escapeChar c = '\\' :: 'u' :: toHex4 c.toNat := by
                      simp [escapeChar, h1, h2, h3, h4, h5, h6, h7, h8, h9]
                    rw [he]
                    have hhex := parseHex4_toHex4 c.toNat (by omega) z
                    have hns : ¬ (55296 ≤ c.toNat ∧ c.toNat < 56320) := by omega
                    have hns2 : ¬ (56320 ≤ c.toNat ∧ c.toNat < 57344) := by omega
                    simp [parseStrAux, hhex, hns, hns2, Char.ofNat_toNat]
                  · have harg : escapeChar c ++ z =
                        '\\' :: 'u' :: (toHex4 (55296 + (c.toNat - 65536) / 1024) ++
                          ('\\' :: 'u' :: (toHex4 (56320 + (c.toNat - 65536) % 1024) ++ z))) := by
                      have he : escapeChar c =
                          ('\\' :: 'u' :: toHex4 (55296 + (c.toNat - 65536) / 1024)) ++
                          ('\\' :: 'u' :: toHex4 (56320 + (c.toNat - 65536) % 1024)) := by
                        simp [escapeChar, h1, h2, h3, h4, h5, h6, h7, h8, h9]
                      rw [he]
                      simp
                    have hdiv : (c.toNat - 65536) / 1024 < 1024 :=
                      Nat.div_lt_of_lt_mul (show c.toNat - 65536 < 1024 * 1024 by omega)
                    have hmod : (c.toNat - 65536) % 1024 < 1024 :=
                      Nat.mod_lt _ (by omega)
                    rw [harg, parseStrAux_surrogate _ _ z f (by omega) (by omega)]
                    have hchar : Char.ofNat (65536 +
                        (55296 + (c.toNat - 65536) / 1024 - 55296) * 1024 +
                        (56320 + (c.toNat - 65536) % 1024 - 56320)) = c := by
                      rw [show 65536 + (55296 + (c.toNat - 65536) / 1024 - 55296) * 1024 +
                        (56320 + (c.toNat - 65536) % 1024 - 56320) = c.toNat by omega]
                      exact Char.ofNat_toNat c
                    rw [hchar]

/-- Reading a whole escaped run stops at the closing quote and recovers the run. -/
theorem parseStrAux_escapeList : ∀ (s rest : List Char) (fuel : Nat), s.length < fuel →
    parseStrAux fuel (escapeList s ++ '"' :: rest) = some (s, rest) := by
  intro s
  induction s with
  | nil =>
    intro rest fuel h
    match fuel, h with
    | f + 1, _ => simp [escapeList, parseStrAux]
  | cons c cs ih =>
    intro rest fuel h
    cases fuel with
    | zero => exact absurd h (Nat.not_lt_zero _)
    | succ f =>
      have hlen : cs.length < f := by
        simp only [List.length_cons] at h
        omega
      have harg : escapeList (c :: cs) ++ '"' :: rest
          = escapeChar c ++ (escapeList cs ++ '"' :: rest) := by
        simp [escapeList]
      rw [harg, parseStrAux_escapeChar, ih rest f hlen]
      rfl

/-! ## Round-trip, part 3: whitespace and token-head facts -/

theorem notWs_skipWs {c : Char} (h : isWs c = false) (z : List Char) :
    skipWs (c :: z) = c :: z := by
  simp [skipWs, h]

theorem skipWs_spaces (n : Nat) (z : List Char) :
    skipWs (List.replicate n ' ' ++ z) = skipWs z := by
  induction n with
  | zero => rfl
  | succ m ih => simpa [List.replicate_succ, skipWs, isWs] using ih

theorem skipWs_nlIndent (k : Nat) (z : List Char) :
    skipWs (nlIndent k ++ z) = skipWs z := by
  simpa [nlIndent, skipWs, isWs] using skipWs_spaces (2 * k) z

/-- Facts about a digit character: not whitespace, none of the parser's
structural tokens. -/
theorem digit_props {c : Char} (h : isDigit c = true) :
    isWs c = false ∧ c ≠ ']' ∧ c ≠ '}' ∧ c ≠ ',' ∧ c ≠ '-' ∧
      c ≠ 'n' ∧ c ≠ 't' ∧ c ≠ 'f' ∧ c ≠ '"' ∧ c ≠ '[' ∧ c ≠ '{' := by
  have hb : 48 ≤ c.toNat ∧ c.toNat ≤ 57 := by
    simpa [isDigit] using h
  refine ⟨?_, ?_, ?_, ?_, ?_, ?_, ?_, ?_, ?_, ?_, ?_⟩
  · simp only [isWs, Bool.or_eq_false_iff, decide_eq_false_iff_not]
    refine ⟨⟨⟨?_, ?_⟩, ?_⟩, ?_⟩ <;> (intro hc; rw [hc] at hb; exact absurd hb (by decide))
  all_goals intro hc; rw [hc] at hb; exact absurd hb (by decide)

/-- Every serialized value starts with a non-whitespace character that closes
no container. -/
theorem dumpVal_head (lvl : Nat) (d : Json) :
    ∃ c t, dumpVal lvl d = c :: t ∧ isWs c = false ∧ c ≠ ']' ∧ c ≠ '}' := by
  cases d with
  | null => exact ⟨'n', _, rfl, by decide⟩
  | bool b => cases b with
    | true => exact ⟨'t', _, rfl, by decide⟩
    | false => exact ⟨'f', _, rfl, by decide⟩
  | int n =>
    by_cases hn : n < 0
    · exact ⟨'-', natRepr n.natAbs, by simp [dumpVal, intRepr, hn], by decide⟩
    · obtain ⟨c, t, hrep, hc⟩ := natRepr_head n.natAbs
      have hp := digit_props hc
      exact ⟨c, t, by simp [dumpVal, intRepr, hn, hrep], hp.1, hp.2.1, hp.2.2.1⟩
  | str s => exact ⟨'"', _, rfl, by decide⟩
  | arr xs => cases xs with
    | nil => exact ⟨'[', _, rfl, by decide⟩
    | cons x xs => exact ⟨'[', _, rfl, by decide⟩
  | obj kvs => cases kvs with
    | nil => exact ⟨'{', _, rfl, by decide⟩
    | cons kv kvs => exact ⟨'{', _, rfl, by decide⟩

/-- `skipWs` leaves a serialized value alone. -/
theorem skipWs_dumpVal (lvl : Nat) (d : Json) (z : List Char) :
    skipWs (dumpVal lvl d ++ z) = dumpVal lvl d ++ z := by
  obtain ⟨c, t, hd, hws, _, _⟩ := dumpVal_head lvl d
  rw [hd, List.cons_append, notWs_skipWs hws]

theorem parseValue_ws (f : Nat) (a b : List Char) (h : skipWs a = skipWs b) :
    parseValue f a = parseValue f b := by
  cases f with
  | zero => rfl
  | succ g =>
    simp only [parseValue]
    rw [h]

theorem parseMember_ws (f : Nat) (a b : List Char) (h : skipWs a = skipWs b) :
    parseMember f a = parseMember f b := by
  cases f with
  | zero => rfl
  | succ g =>
    simp only [parseMember]
    rw [h]

theorem parseArrayRest_ws (f : Nat) (acc : List Json) (a b : List Char)
    (h : skipWs a = skipWs b) : parseArrayRest f acc a = parseArrayRest f acc b := by
  cases f with
  | zero => rfl
  | succ g =>
    simp only [parseArrayRest]
    rw [h]

theorem parseObjRest_ws (f : Nat) (acc : List (String × Json)) (a b : List Char)
    (h : skipWs a = skipWs b) : parseObjRest f acc a = parseObjRest f acc b := by
  cases f with
  | zero => rfl
  | succ g =>
    simp only [parseObjRest]
    rw [h]

/-- An escaped character occupies at least one character. -/
theorem escapeChar_length (c : Char) : 1 ≤ (escapeChar c).length := by
  unfold escapeChar
  split_ifs <;> simp [toHex4]

theorem escapeList_length (s : List Char) : s.length ≤ (escapeList s).length := by
  induction s with
  | nil => simp [escapeList]
  | cons c cs ih =>
    have := escapeChar_length c
    simp only [escapeList, List.length_append, List.length_cons]
    omega

/-! ## Round-trip, part 4: one-token step lemmas for `parseValue` -/

theorem digitDelim_items (il cl : Nat) (xs : List Json) (z : List Char) :
    digitDelim (dumpItems il xs ++ (nlIndent cl ++ z)) = true := by
  cases xs with
  | nil => rfl
  | cons x xs => rfl

theorem digitDelim_members (il cl : Nat) (kvs : List (String × Json)) (z : List Char) :
    digitDelim (dumpMembers il kvs ++ (nlIndent cl ++ z)) = true := by
  cases kvs with
  | nil => rfl
  | cons kv kvs => rfl

/-- A value whose input starts like a number is read through `parseNumber`. -/
theorem parseValue_num_step (f : Nat) (c : Char) (t : List Char)
    (hws : isWs c = false) (hn : c ≠ 'n') (ht : c ≠ 't') (hf : c ≠ 'f')
    (hq : c ≠ '"') (hbk : c ≠ '[') (hbc : c ≠ '{') (hg : (c = '-' || isDigit c) = true) :
    parseValue (f + 1) (c :: t)
      = match parseNumber (c :: t) with
        | some (i, r) => some (.int i, r)
        | none => none := by
  simp only [parseValue]
  rw [notWs_skipWs hws]
  simp [hn, ht, hf, hq, hbk, hbc, hg]

/-- A serialized string is read back exactly. -/
theorem parseValue_str_step (f : Nat) (s : String) (rest : List Char) :
    parseValue (f + 1) ('"' :: (escapeList s.data ++ ('"' :: rest))) = some (.str s, rest) := by
  have hfstr : s.data.length < (escapeList s.data ++ ('"' :: rest)).length + 1 := by
    have := escapeList_length s.data
    simp only [List.length_append, List.length_cons]
    omega
  have hstr := parseStrAux_escapeList s.data rest
    ((escapeList s.data ++ ('"' :: rest)).length + 1) hfstr
  simp only [List.length_append, List.length_cons] at hstr
  simp only [parseValue]
  rw [notWs_skipWs (by decide)]
  simp [hstr]

/-- The parser's array branch hands a nonempty serialized array to
`parseArrayRest` after reading the first element. -/
theorem parseValue_arr_step (f k : Nat) (x : Json) (γ : List Char) :
    parseValue (f + 1) ('[' :: (nlIndent k ++ (dumpVal k x ++ γ)))
      = match parseValue f (dumpVal k x ++ γ) with
        | some (v, r) => parseArrayRest f [v] r
        | none => none := by
  obtain ⟨c, t, hd, hws, hbr, hbc⟩ := dumpVal_head k x
  have hskip : skipWs (nlIndent k ++ (dumpVal k x ++ γ)) = c :: (t ++ γ) := by
    rw [skipWs_nlIndent, skipWs_dumpVal, hd, List.cons_append]
  have hback : (c :: (t ++ γ) : List Char) = dumpVal k x ++ γ := by
    rw [hd, List.cons_append]
  simp only [parseValue]
  rw [notWs_skipWs (by decide)]
  simp [hskip, hbr]
  rw [hback]

/-- The parser's object branch hands a nonempty serialized object to
`parseObjRest` after reading the first member. -/
theorem parseValue_obj_step (f k : Nat) (kv : String × Json) (γ : List Char) :
    parseValue (f + 1) ('{' :: (nlIndent k ++ (dumpMember k kv ++ γ)))
      = match parseMember f (dumpMember k kv ++ γ) with
        | some (kv', r) => parseObjRest f [kv'] r
        | none => none := by
  have hd : dumpMember k kv
      = '"' :: (escapeList kv.1.data ++ ('"' :: (':' :: dumpVal k kv.2))) := by
    cases kv
    rfl
  have hskip : skipWs (nlIndent k ++ (dumpMember k kv ++ γ))
      = '"' :: ((escapeList kv.1.data ++ ('"' :: (':' :: dumpVal k kv.2))) ++ γ) := by
    rw [skipWs_nlIndent, hd, List.cons_append, notWs_skipWs (by decide)]
  have hback : ('"' :: (escapeList kv.1.data ++ ('"' :: (':' :: (dumpVal k kv.2 ++ γ))))
      : List Char) = dumpMember k kv ++ γ := by
    rw [hd]
    simp
  simp only [parseValue]
  rw [notWs_skipWs (by decide)]
  simp [hskip]
  rw [hback]

/-! ## Round-trip, part 5: the serializer/deserializer inverse theorems -/

mutual

theorem rt_val : ∀ (d : Json) (lvl fuel : Nat) (rest : List Char),
    jsize d ≤ fuel → digitDelim rest = true →
    parseValue fuel (dumpVal lvl d ++ rest) = some (d, rest)
  | .null, lvl, fuel, rest, hf, _ => by
    cases fuel with
    | zero => have := jsize_pos Json.null; omega
    | succ f => simp [dumpVal, parseValue, skipWs, isWs]
  | .bool true, lvl, fuel, rest, hf, _ => by
    cases fuel with
    | zero => have := jsize_pos (Json.bool true); omega
    | succ f => simp [dumpVal, parseValue, skipWs, isWs]
  | .bool false, lvl, fuel, rest, hf, _ => by
    cases fuel with
    | zero => have := jsize_pos (Json.bool false); omega
    | succ f => simp [dumpVal, parseValue, skipWs, isWs]
  | .int n, lvl, fuel, rest, hf, hr => by
    cases fuel with
    | zero => have := jsize_pos (Json.int n); omega
    | succ f =>
      by_cases hn : n < 0
      · have harg : dumpVal lvl (.int n) ++ rest = '-' :: (natRepr n.natAbs ++ rest) := by
          simp [dumpVal, intRepr, hn]
        rw [harg, parseValue_num_step f '-' _ (by decide) (by decide) (by decide) (by decide)
          (by decide) (by decide) (by decide) (by decide)]
        have harg2 : ('-' :: (natRepr n.natAbs ++ rest) : List Char) = intRepr n ++ rest := by
          simp [intRepr, hn]
        rw [harg2, parseNumber_intRepr n rest hr]
      · obtain ⟨c, t, hrep, hc⟩ := natRepr_head n.natAbs
        obtain ⟨hws, _, _, _, _, hn', ht', hf', hq, hbk, hbc⟩ := digit_props hc
        have harg : dumpVal lvl (.int n) ++ rest = c :: (t ++ rest) := by
          simp [dumpVal, intRepr, hn, hrep]
        rw [harg, parseValue_num_step f c _ hws hn' ht' hf' hq hbk hbc (by simp [hc])]
        have harg2 : (c :: (t ++ rest) : List Char) = intRepr n ++ rest := by
          simp [intRepr, hn, hrep]
        rw [harg2, parseNumber_intRepr n rest hr]
  | .str s, lvl, fuel, rest, hf, _ => by
    cases fuel with
    | zero => have := jsize_pos (Json.str s); omega
    | succ f =>
      have harg : dumpVal lvl (.str s) ++ rest = '"' :: (escapeList s.data ++ ('"' :: rest)) := by
        simp [dumpVal]
      rw [harg, parseValue_str_step]
  | .arr [], lvl, fuel, rest, hf, _ => by
    cases fuel with
    | zero => have := jsize_pos (Json.arr []); omega
    | succ f =>
      have harg : dumpVal lvl (.arr []) ++ rest = '[' :: (']' :: rest) := by
        simp [dumpVal]
      rw [harg]
      simp [parseValue, skipWs, isWs]
  | .arr (x :: xs), lvl, fuel, rest, hf, hr => by
    cases fuel with
    | zero => have := jsize_pos (Json.arr (x :: xs)); omega
    | succ f =>
      have hsz : jsize (Json.arr (x :: xs)) = 2 + jsize x + jsizeList xs := by
        simp [jsize, jsizeList]
        omega
      have hx : jsize x ≤ f := by
        have := jsize_pos x
        omega
      have hxs : jsizeList xs < f := by
        have := jsize_pos x
        omega
      have harg : dumpVal lvl (.arr (x :: xs)) ++ rest
          = '[' :: (nlIndent (lvl + 1) ++ (dumpVal (lvl + 1) x ++
            (dumpItems (lvl + 1) xs ++ (nlIndent lvl ++ (']' :: rest))))) := by
        simp [dumpVal]
      rw [harg, parseValue_arr_step,
        rt_val x (lvl + 1) f _ hx (digitDelim_items (lvl + 1) lvl xs (']' :: rest))]
      simp [rt_items xs [x] (lvl + 1) lvl f rest hxs]
  | .obj [], lvl, fuel, rest, hf, _ => by
    cases fuel with
    | zero => have := jsize_pos (Json.obj []); omega
    | succ f =>
      have harg : dumpVal lvl (.obj []) ++ rest = '{' :: ('}' :: rest) := by
        simp [dumpVal]
      rw [harg]
      simp [parseValue, skipWs, isWs]
  | .obj (kv :: kvs), lvl, fuel, rest, hf, hr => by
    cases fuel with
    | zero => have := jsize_pos (Json.obj (kv :: kvs)); omega
    | succ f =>
      have hsz : jsize (Json.obj (kv :: kvs)) = 2 + jsize kv.2 + jsizeKvs kvs := by
        simp [jsize, jsizeKvs]
        omega
      have hv : jsize kv.2 < f := by
        have := jsize_pos kv.2
        omega
      have hkvs : jsizeKvs kvs < f := by
        have := jsize_pos kv.2
        omega
      have harg : dumpVal lvl (.obj (kv :: kvs)) ++ rest
          = '{' :: (nlIndent (lvl + 1) ++ (dumpMember (lvl + 1) kv ++
            (dumpMembers (lvl + 1) kvs ++ (nlIndent lvl ++ ('}' :: rest))))) := by
        simp [dumpVal]
      rw [harg, parseValue_obj_step,
        rt_member kv (lvl + 1) f _ hv (digitDelim_members (lvl + 1) lvl kvs ('}' :: rest))]
      simp [rt_membersRest kvs [kv] (lvl + 1) lvl f rest hkvs]
termination_by d _ _ _ _ _ => sizeOf d

theorem rt_items : ∀ (xs acc : List Json) (il cl fuel : Nat) (rest : List Char),
    jsizeList xs < fuel →
    parseArrayRest fuel acc (dumpItems il xs ++ (nlIndent cl ++ (']' :: rest)))
      = some (.arr (acc.reverse ++ xs), rest)
  | [], acc, il, cl, fuel, rest, hf => by
    cases fuel with
    | zero => omega
    | succ f =>
      simp only [dumpItems, List.nil_append]
      simp only [parseArrayRest]
      rw [skipWs_nlIndent, notWs_skipWs (by decide)]
      simp
  | x :: xs, acc, il, cl, fuel, rest, hf => by
    cases fuel with
    | zero => omega
    | succ f =>
      have hsz : jsizeList (x :: xs) = 1 + jsize x + jsizeList xs := by
        simp [jsizeList]
      have hx : jsize x ≤ f := by
        have := jsize_pos x
        omega
      have hxs : jsizeList xs < f := by
        have := jsize_pos x
        omega
      have harg : dumpItems il (x :: xs) ++ (nlIndent cl ++ (']' :: rest))
          = ',' :: (nlIndent il ++ (dumpVal il x ++
            (dumpItems il xs ++ (nlIndent cl ++ (']' :: rest))))) := by
        simp [dumpItems]
      rw [harg]
      simp only [parseArrayRest]
      rw [notWs_skipWs (by decide)]
      have hv : parseValue f (nlIndent il ++ (dumpVal il x ++
          (dumpItems il xs ++ (nlIndent cl ++ (']' :: rest)))))
          = some (x, dumpItems il xs ++ (nlIndent cl ++ (']' :: rest))) := by
        rw [parseValue_ws f _ (dumpVal il x ++ (dumpItems il xs ++ (nlIndent cl ++ (']' :: rest))))
          (by rw [skipWs_nlIndent])]
        exact rt_val x il f _ hx (digitDelim_items il cl xs (']' :: rest))
      simp only [hv]
      have htail := rt_items xs (x :: acc) il cl f rest hxs
      simpa using htail
termination_by xs _ _ _ _ _ _ => sizeOf xs

theorem rt_member : ∀ (kv : String × Json) (il fuel : Nat) (γ : List Char),
    jsize kv.2 < fuel → digitDelim γ = true →
    parseMember fuel (dumpMember il kv ++ γ) = some (kv, γ)
  | (k, v), il, fuel, γ, hf, hd => by
    have hfv : jsize v < fuel := hf
    cases fuel with
    | zero => omega
    | succ f =>
      have harg : dumpMember il (k, v) ++ γ
          = '"' :: (escapeList k.data ++ ('"' :: (':' :: (dumpVal il v ++ γ)))) := by
        simp [dumpMember]
      rw [harg]
      simp only [parseMember]
      rw [notWs_skipWs (by decide)]
      have hfstr : k.data.length <
          (escapeList k.data ++ ('"' :: (':' :: (dumpVal il v ++ γ)))).length + 1 := by
        have := escapeList_length k.data
        simp only [List.length_append, List.length_cons]
        omega
      have hstr := parseStrAux_escapeList k.data (':' :: (dumpVal il v ++ γ))
        ((escapeList k.data ++ ('"' :: (':' :: (dumpVal il v ++ γ)))).length + 1) hfstr
      simp only [List.length_append, List.length_cons] at hstr
      have hv := rt_val v il f γ (by omega) hd
      simp [hstr, hv, skipWs, isWs]

termination_by kv _ _ _ _ _ => sizeOf kv

theorem rt_membersRest : ∀ (kvs acc : List (String × Json)) (il cl fuel : Nat)
    (rest : List Char),
    jsizeKvs kvs < fuel →
    parseObjRest fuel acc (dumpMembers il kvs ++ (nlIndent cl ++ ('}' :: rest)))
      = some (.obj (acc.reverse ++ kvs), rest)
  | [], acc, il, cl, fuel, rest, hf => by
    cases fuel with
    | zero => omega
    | succ f =>
      simp only [dumpMembers, List.nil_append]
      simp only [parseObjRest]
      rw [skipWs_nlIndent, notWs_skipWs (by decide)]
      simp
  | kv :: kvs, acc, il, cl, fuel, rest, hf => by
    cases fuel with
    | zero => omega
    | succ f =>
      have hsz : jsizeKvs (kv :: kvs) = 1 + jsize kv.2 + jsizeKvs kvs := by
        simp [jsizeKvs]
      have hv : jsize kv.2 < f := by
        omega
      have hkvs : jsizeKvs kvs < f := by
        have := jsize_pos kv.2
        omega
      have harg : dumpMembers il (kv :: kvs) ++ (nlIndent cl ++ ('}' :: rest))
          = ',' :: (nlIndent il ++ (dumpMember il kv ++
            (dumpMembers il kvs ++ (nlIndent cl ++ ('}' :: rest))))) := by
        simp [dumpMembers]
      rw [harg]
      simp only [parseObjRest]
      rw [notWs_skipWs (by decide)]
      have hm : parseMember f (nlIndent il ++ (dumpMember il kv ++
          (dumpMembers il kvs ++ (nlIndent cl ++ ('}' :: rest)))))
          = some (kv, dumpMembers il kvs ++ (nlIndent cl ++ ('}' :: rest))) := by
        rw [parseMember_ws f _ (dumpMember il kv ++
          (dumpMembers il kvs ++ (nlIndent cl ++ ('}' :: rest))))
          (by rw [skipWs_nlIndent])]
        exact rt_member kv il f _ hv (digitDelim_members il cl kvs ('}' :: rest))
      simp only [hm]
      have htail := rt_membersRest kvs (kv :: acc) il cl f rest hkvs
      simpa using htail
termination_by kvs _ _ _ _ _ _ => sizeOf kvs

end

/-! ## Round-trip, part 6: fuel bound and `loads (dumps d)` -/

mutual

theorem jsize_le_dumpVal : ∀ (lvl : Nat) (d : Json), jsize d ≤ (dumpVal lvl d).length
  | lvl, .null => by simp [jsize, dumpVal]
  | lvl, .bool b => by cases b <;> simp [jsize, dumpVal]
  | lvl, .int n => by
    have h := natRepr_ne_nil n.natAbs
    have hlen : 1 ≤ (natRepr n.natAbs).length := by
      cases hrep : natRepr n.natAbs with
      | nil => exact absurd hrep h
      | cons c t => simp
    simp only [jsize, dumpVal, intRepr, List.length_append]
    by_cases hn : n < 0
    · rw [if_pos hn]
      simp only [List.length_cons, List.length_nil]
      omega
    · rw [if_neg hn]
      simp only [List.length_nil]
      omega
  | lvl, .str s => by simp [jsize, dumpVal]
  | lvl, .arr [] => by simp [jsize, jsizeList, dumpVal]
  | lvl, .arr (x :: xs) => by
    have h1 := jsize_le_dumpVal (lvl + 1) x
    have h2 := jsizeList_le_dumpItems (lvl + 1) xs
    simp only [jsize, jsizeList, dumpVal, List.length_cons, List.length_append]
    omega
  | lvl, .obj [] => by simp [jsize, jsizeKvs, dumpVal]
  | lvl, .obj (kv :: kvs) => by
    have h1 := jsize_le_dumpMember (lvl + 1) kv
    have h2 := jsizeKvs_le_dumpMembers (lvl + 1) kvs
    simp only [jsize, jsizeKvs, dumpVal, List.length_cons, List.length_append]
    omega

theorem jsizeList_le_dumpItems : ∀ (lvl : Nat) (xs : List Json),
    jsizeList xs ≤ (dumpItems lvl xs).length
  | lvl, [] => by simp [jsizeList, dumpItems]
  | lvl, x :: xs => by
    have h1 := jsize_le_dumpVal lvl x
    have h2 := jsizeList_le_dumpItems lvl xs
    simp only [jsizeList, dumpItems, List.length_cons, List.length_append]
    omega

theorem jsize_le_dumpMember : ∀ (lvl : Nat) (kv : String × Json),
    jsize kv.2 + 1 ≤ (dumpMember lvl kv).length
  | lvl, (k, v) => by
    have h1 := jsize_le_dumpVal lvl v
    simp only [dumpMember, List.length_cons, List.length_append]
    omega

theorem jsizeKvs_le_dumpMembers : ∀ (lvl : Nat) (kvs : List (String × Json)),
    jsizeKvs kvs ≤ (dumpMembers lvl kvs).length
  | lvl, [] => by simp [jsizeKvs, dumpMembers]
  | lvl, kv :: kvs => by
    have h1 := jsize_le_dumpMember lvl kv
    have h2 := jsizeKvs_le_dumpMembers lvl kvs
    simp only [jsizeKvs, dumpMembers, List.length_cons, List.length_append]
    omega

end

/-- Reading back a serialized (key-sorted) value recovers it exactly. -/
theorem loads_dumpVal (d : Json) : loads (String.mk (dumpVal 0 d)) = some d := by
  have hfuel : jsize d ≤ (dumpVal 0 d).length + 1 :=
    le_trans (jsize_le_dumpVal 0 d) (by omega)
  have h := rt_val d 0 ((dumpVal 0 d).length + 1) [] hfuel rfl
  rw [List.append_nil] at h
  simp only [loads]
  rw [show (String.mk (dumpVal 0 d)).length = (dumpVal 0 d).length from rfl, h]
  simp [skipWs]

/-! ## Canonical (key-sorted) documents -/

/-- Are the member keys strictly increasing (Python `str` order)? -/
def keysSorted : List (String × Json) → Bool
  | [] => true
  | [_] => true
  | a :: b :: t => keyLt a.1 b.1 && keysSorted (b :: t)

mutual

/-- A document is canonical when every object's keys are strictly sorted: the
representative of a Python `dict` tree that `sort_keys=True` serialization
leaves unpermuted. -/
def canonical : Json → Bool
  | .null => true
  | .bool _ => true
  | .int _ => true
  | .str _ => true
  | .arr xs => canonicalList xs
  | .obj kvs => keysSorted kvs && canonicalKvs kvs

def canonicalList : List Json → Bool
  | [] => true
  | x :: xs => canonical x && canonicalList xs

def canonicalKvs : List (String × Json) → Bool
  | [] => true
  | kv :: kvs => canonical kv.2 && canonicalKvs kvs

end

theorem keyLt_ne {x y : String} (h : keyLt x y = true) : x ≠ y := by
  simp only [keyLt, Bool.and_eq_true, Bool.not_eq_true', beq_eq_false_iff_ne] at h
  exact h.2

theorem keyLt_le {x y : String} (h : keyLt x y = true) : keyLe x y = true := by
  simp only [keyLt, Bool.and_eq_true] at h
  exact h.1

theorem keyLt_trans {x y z : String} (h1 : keyLt x y = true) (h2 : keyLt y z = true) :
    keyLt x z = true := by
  have hle : keyLe x z = true := keyLe_trans (keyLt_le h1) (keyLt_le h2)
  have hne : x ≠ z := by
    intro hxz
    have h1' := keyLt_le h1
    have h2' := keyLt_le h2
    rw [hxz] at h1'
    exact keyLt_ne h2 (keyLe_antisymm h2' h1')
  simp [keyLt, hle, hne]

theorem keysSorted_pairwise_lt : ∀ l : List (String × Json), keysSorted l = true →
    l.Pairwise (fun a b => keyLt a.1 b.1 = true)
  | [], _ => List.Pairwise.nil
  | [a], _ => by simp
  | a :: b :: t, h => by
    have h' : keyLt a.1 b.1 = true ∧ keysSorted (b :: t) = true := by
      simpa [keysSorted, Bool.and_eq_true] using h
    have ih := keysSorted_pairwise_lt (b :: t) h'.2
    have hbt := (List.pairwise_cons.mp ih).1
    refine List.Pairwise.cons ?_ ih
    intro x hx
    rcases List.mem_cons.mp hx with hx | hx
    · rw [hx]
      exact h'.1
    · exact keyLt_trans h'.1 (hbt x hx)

theorem keysSorted_pairwise_le {l : List (String × Json)} (h : keysSorted l = true) :
    l.Pairwise keyPairLe :=
  (keysSorted_pairwise_lt l h).imp (fun hab => keyLt_le hab)

theorem keysSorted_nodup {l : List (String × Json)} (h : keysSorted l = true) :
    (l.map Prod.fst).Nodup :=
  List.pairwise_map.mpr ((keysSorted_pairwise_lt l h).imp (fun hab => keyLt_ne hab))

mutual

theorem sortAll_eq_self : ∀ d : Json, canonical d = true → sortAll d = d
  | .null, _ => rfl
  | .bool _, _ => rfl
  | .int _, _ => rfl
  | .str _, _ => rfl
  | .arr xs, h => by
    rw [show sortAll (.arr xs) = .arr (sortAllList xs) from rfl,
      sortAllList_eq_self xs (by simpa [canonical] using h)]
  | .obj kvs, h => by
    have h' : keysSorted kvs = true ∧ canonicalKvs kvs = true := by
      simpa [canonical, Bool.and_eq_true] using h
    rw [show sortAll (.obj kvs) = .obj (List.insertionSort keyPairLe (sortAllKvs kvs)) from rfl,
      sortAllKvs_eq_self kvs h'.2,
      List.Sorted.insertionSort_eq (keysSorted_pairwise_le h'.1)]

theorem sortAllList_eq_self : ∀ xs : List Json, canonicalList xs = true → sortAllList xs = xs
  | [], _ => rfl
  | x :: xs, h => by
    have h' : canonical x = true ∧ canonicalList xs = true := by
      simpa [canonicalList, Bool.and_eq_true] using h
    rw [show sortAllList (x :: xs) = sortAll x :: sortAllList xs from rfl,
      sortAll_eq_self x h'.1, sortAllList_eq_self xs h'.2]

theorem sortAllKvs_eq_self : ∀ kvs : List (String × Json), canonicalKvs kvs = true →
    sortAllKvs kvs = kvs
  | [], _ => rfl
  | kv :: kvs, h => by
    have h' : canonical kv.2 = true ∧ canonicalKvs kvs = true := by
      simpa [canonicalKvs, Bool.and_eq_true] using h
    rw [show sortAllKvs (kv :: kvs) = (kv.1, sortAll kv.2) :: sortAllKvs kvs from rfl,
      sortAll_eq_self kv.2 h'.1, sortAllKvs_eq_self kvs h'.2]

end

/-- `loads` is a left inverse of `dumps` on canonical documents: the persister's
file deserializes to the exact document it persisted. -/
theorem loads_dumps (d : Json) (h : canonical d = true) : loads (dumps d) = some d := by
  rw [dumps, sortAll_eq_self d h]
  exact loads_dumpVal d

/-- Two permuted member lists with no duplicate keys sort identically: the
"stable key ordering" that makes the persister's output canonical. -/
theorem insertionSort_perm_eq (l1 l2 : List (String × Json)) (hp : l1.Perm l2)
    (hn : (l1.map Prod.fst).Nodup) :
    List.insertionSort keyPairLe l1 = List.insertionSort keyPairLe l2 := by
  haveI : IsTotal (String × Json) keyPairLe := ⟨fun a b => keyLe_total a.1 b.1⟩
  haveI : IsTrans (String × Json) keyPairLe := ⟨fun a b c h1 h2 => keyLe_trans h1 h2⟩
  have hs1 := List.sorted_insertionSort keyPairLe l1
  have hs2 := List.sorted_insertionSort keyPairLe l2
  have hp1 := List.perm_insertionSort keyPairLe l1
  have hp2 := List.perm_insertionSort keyPairLe l2
  have hn2 : (l2.map Prod.fst).Nodup := ((hp.map Prod.fst).nodup_iff).mp hn
  have hne1 : (List.insertionSort keyPairLe l1).Pairwise (fun a b => a.1 ≠ b.1) :=
    List.pairwise_map.mp (((hp1.map Prod.fst).nodup_iff).mpr hn)
  have hne2 : (List.insertionSort keyPairLe l2).Pairwise (fun a b => a.1 ≠ b.1) :=
    List.pairwise_map.mp (((hp2.map Prod.fst).nodup_iff).mpr hn2)
  have hst1 : (List.insertionSort keyPairLe l1).Pairwise
      (fun a b : String × Json => keyPairLe a b ∧ a.1 ≠ b.1) := hs1.and hne1
  have hst2 : (List.insertionSort keyPairLe l2).Pairwise
      (fun a b : String × Json => keyPairLe a b ∧ a.1 ≠ b.1) := hs2.and hne2
  haveI : IsAntisymm (String × Json) (fun a b => keyPairLe a b ∧ a.1 ≠ b.1) := by
    constructor
    intro a b h1 h2
    exact absurd (keyLe_antisymm h1.1 h2.1) h1.2
  exact List.eq_of_perm_of_sorted (hp1.trans (hp.trans hp2.symm)) hst1 hst2

/-! ## The scraper (`pypi_scraper/pypi_scraper.py`)

The network, the HTML parse and the filesystem are explicit inputs: `World.http`
gives the successive `requests.get` outcomes per URL, `World.parse` is the
BeautifulSoup collaborator (`BeautifulSoup(html, 'html.parser').find('table',
class_='list')`, flattened to its `find_all('a')` anchors, or `none` when the
table is absent), and `World.ioFail` says which paths fail to open for writing. -/

/-- A Python exception, as coarse as the model needs. -/
inductive PyErr where
  | attributeError
  | indexError
  | ioError
  | connectionError
deriving DecidableEq

/-- One HTTP response: status code, raw body (`response.content`), and the
result of `response.json()` — `none` when decoding the body raises. -/
structure Response where
  status : Nat
  content : String
  jsonBody : Option Json

/-- One outcome of a `requests.get` call: a transport-level
`requests.exceptions.ConnectionError`, some other exception, or a response. -/
inductive Outcome where
  | connErr
  | otherErr
  | resp (r : Response)

/-- An anchor element from `find_all('a')`: its `href` attribute may be absent
(`link.get('href')` then returns `None`). -/
structure Anchor where
  href : Option String

/-- The try-block of `_get_pypi_homepage` on one outcome (lines 84-99): a
`ConnectionError` is logged and re-raised (the retry decorator sees it); any
other exception is logged and swallowed, falling off the function (`None`); a
response yields its body on a 2xx status and `None` otherwise. -/
def homepageAttempt : Outcome → Except PyErr (Option String)
  | .connErr => .error .connectionError
  | .otherErr => .ok none
  | .resp r => .ok (if 200 ≤ r.status ∧ r.status < 300 then some r.content else none)

/-- Errors logged by one homepage attempt (the `logger.error` call in `except`). -/
def homepageErrs : Outcome → Nat
  | .connErr => 1
  | .otherErr => 1
  | .resp _ => 0

/-- The try-block of `_get_json_data_for_package` on one outcome (lines
133-148): as the homepage attempt, but on a 2xx response the body is decoded;
a decode failure raises inside the `try`, is logged, and the function returns
`None` (the exception is not a `ConnectionError`, so it is not re-raised). -/
def packageAttempt : Outcome → Except PyErr (Option Json)
  | .connErr => .error .connectionError
  | .otherErr => .ok none
  | .resp r => .ok (if 200 ≤ r.status ∧ r.status < 300 then r.jsonBody else none)

/-- Errors logged by one package attempt. -/
def packageErrs : Outcome → Nat
  | .connErr => 1
  | .otherErr => 1
  | .resp r =>
    if 200 ≤ r.status ∧ r.status < 300 then (if r.jsonBody.isNone then 1 else 0) else 0

/-- The `@retry(retry_on_exception=_retry_if_requests_connection_error,
wait_exponential_multiplier=500, wait_exponential_max=10000,
stop_max_attempt_number=5)` decorator: run the wrapped body on successive
outcomes; a `ConnectionError` is retried (after an exponential-backoff sleep,
which has no observable effect in this model) until the attempt budget is
spent, and then re-raised (`retrying` keeps `wrap_exception=False`, so the
original exception propagates). The second component counts the errors logged.
An exhausted outcome list models a state `requests.get` cannot produce and is
mapped to a connection failure. -/
def retryFetch {α : Type} (attempt : Outcome → Except PyErr α) (errs : Outcome → Nat) :
    Nat → List Outcome → Except PyErr α × Nat
  | 0, _ => (.error .connectionError, 0)
  | _ + 1, [] => (.error .connectionError, 0)
  | n + 1, o :: rest =>
    match attempt o with
    | .ok v => (.ok v, errs o)
    | .error e =>
      if n = 0 then (.error e, errs o)
      else
        let p := retryFetch attempt errs n rest
        (p.1, errs o + p.2)

/-- `_get_pypi_homepage`, retry-decorated with `stop_max_attempt_number=5`. -/
def getPypiHomepage (outcomes : List Outcome) : Except PyErr (Option String) × Nat :=
  retryFetch homepageAttempt homepageErrs 5 outcomes

/-- The per-package endpoint: `self.pypi_source_page + "/{}/json".format(package)`. -/
def packageUrl (base package : String) : String := base ++ "/" ++ package ++ "/json"

/-- The environment one pipeline run interacts with. -/
structure World where
  http : String → List Outcome
  parse : String → Option (List Anchor)
  ioFail : String → Bool

/-- `_get_json_data_for_package`, retry-decorated, fetching its package URL. -/
def getJsonDataForPackage (base : String) (w : World) (package : String) :
    Except PyErr (Option Json) :=
  (retryFetch packageAttempt packageErrs 5 (w.http (packageUrl base package))).1

/-- `str.split('/')` with its single-character separator: split at every `'/'`,
keeping empty segments, as Python does. -/
def splitSlashAux : List Char → List Char → List String
  | [], acc => [String.mk acc.reverse]
  | c :: cs, acc =>
    if c = '/' then String.mk acc.reverse :: splitSlashAux cs []
    else splitSlashAux cs (c :: acc)

/-- Python's `h.split('/')`. -/
def pySplitSlash (h : String) : List String := splitSlashAux h.data []

example : pySplitSlash "/pypi/alpha/1.0" = ["", "pypi", "alpha", "1.0"] := by decide
example : pySplitSlash "" = [""] := by decide

/-- The body of `_get_list_of_packages_to_retrieve`'s list comprehension
(lines 112-116), anchor by anchor: `link.get('href').split('/')[2]`. An anchor
with no `href` makes `None.split` raise `AttributeError` — the comprehension's
guard `if link is not None` tests the anchor itself, which `find_all` never
yields as `None`, so it filters nothing. An `href` with fewer than three
`'/'`-separated segments raises `IndexError`. -/
def extractNames : List Anchor → Except PyErr (List String)
  | [] => .ok []
  | a :: rest =>
    match a.href with
    | none => .error .attributeError
    | some h =>
      let parts := pySplitSlash h
      if 2 < parts.length then
        match extractNames rest with
        | .ok ns => .ok (parts.getD 2 "" :: ns)
        | .error e => .error e
      else .error .indexError

/-- `_get_list_of_packages_to_retrieve`, applied to the parsed homepage: when
`soup.find('table', class_='list')` returns `None`, calling `find_all` on it
raises `AttributeError`. -/
def getListOfPackagesToRetrieve : Option (List Anchor) → Except PyErr (List String)
  | none => .error .attributeError
  | some anchors => extractNames anchors

/-- Python `dict.get` on an association list (keys are unique in a `dict`). -/
def lookupKey (k : String) : List (String × Json) → Option Json
  | [] => none
  | kv :: kvs => if kv.1 = k then some kv.2 else lookupKey k kvs

/-- `package_data.get('info', {}).get('name', None)` (line 158): raises
`AttributeError` when a receiver of `.get` is not a mapping (in particular when
`package_data` is `None` or a non-object document). -/
def nameOf : Json → Except PyErr (Option Json)
  | .obj kvs =>
    match (lookupKey "info" kvs).getD (.obj []) with
    | .obj kvs2 => .ok (lookupKey "name" kvs2)
    | _ => .error .attributeError
  | _ => .error .attributeError

/-- Python `repr` of a string: quotes (double if the text holds a single quote
but no double quote, else single), escaping the backslash and the quote used.
(`\xNN` escapes of other non-printables are omitted — no claim depends on the
`repr` of a container used as a file name.) -/
def pyStrRepr (s : String) : String :=
  let q : Char := if s.data.contains '\'' ∧ ¬ s.data.contains '"' then '"' else '\''
  let esc := s.data.foldr
    (fun c acc => if c = '\\' ∨ c = q then '\\' :: c :: acc else c :: acc) []
  String.mk (q :: esc ++ [q])

mutual

/-- Python `repr` of a JSON-decoded value (used by `str` on containers). -/
def pyRepr : Json → String
  | .null => "None"
  | .bool true => "True"
  | .bool false => "False"
  | .int n => String.mk (intRepr n)
  | .str s => pyStrRepr s
  | .arr xs => "[" ++ pyReprList xs ++ "]"
  | .obj kvs => "\x7b" ++ pyReprKvs kvs ++ "\x7d"

def pyReprList : List Json → String
  | [] => ""
  | [x] => pyRepr x
  | x :: xs => pyRepr x ++ ", " ++ pyReprList xs

def pyReprKvs : List (String × Json) → String
  | [] => ""
  | [kv] => pyStrRepr kv.1 ++ ": " ++ pyRepr kv.2
  | kv :: kvs => pyStrRepr kv.1 ++ ": " ++ pyRepr kv.2 ++ ", " ++ pyReprKvs kvs

end

/-- `"{}".format(package_name)`, i.e. `str()` of what `.get('name', None)`
returned: `None` formats as `"None"`, a string as itself, other scalars as
Python prints them, containers through their `repr`. -/
def pyStr : Option Json → String
  | none => "None"
  | some (.str s) => s
  | some (.bool true) => "True"
  | some (.bool false) => "False"
  | some (.int n) => String.mk (intRepr n)
  | some .null => "None"
  | some v => pyRepr v

/-- `_save_package_data_to_disk` (lines 150-170): extract the name, build
`{base_save_path}/{name}.json`, open it for writing (an I/O failure raises) and
`json.dump` the document with `indent=2, sort_keys=True, separators=(',', ':')`.
Any exception in the `try` is logged and re-raised (the bare `raise` on line
168); otherwise the method returns `True`. The model returns the written
`(path, contents)` pair in place of `True`. -/
def saveToDisk (io : String → Bool) (base : String) (d : Json) :
    Except PyErr (String × String) :=
  match nameOf d with
  | .error e => .error e
  | .ok nm =>
    let fileName := base ++ "/" ++ pyStr nm ++ ".json"
    if io fileName then .error .ioError
    else .ok (fileName, dumps d)

/-- `f[:-5]` on a file name. -/
def pyDropLast5 (f : String) : String := String.mk (f.data.take (f.data.length - 5))

/-- `_get_list_of_existing_packages` (lines 58-72), applied to the regular
files of `base_save_path` (the `listdir`/`isfile` part of the environment):
`[f[:-5] for f in current_files]`. -/
def getListOfExistingPackages (currentFiles : List String) : List String :=
  currentFiles.map pyDropLast5

/-- The scraper's constructor configuration (defaults of `__init__`; the
logging parameters have no observable effect in the model). -/
structure PyPIScraper where
  pypi_source_page : String := "https://pypi.python.org/pypi"
  base_save_path : String := "/usr/src/app/data"

/-- The per-package loop of `run` (lines 190-201): fetch each package's
metadata; `None` (after logging) skips the package; a document is saved and, on
success, counted. The randomized `sleep` between packages has no observable
effect. A `ConnectionError` surviving the fetch's retries, and any exception
re-raised by `_save_package_data_to_disk`, propagate out of the loop — nothing
in `run` catches them. Returns the list of files written, in order (the loop's
`files_written` equals its length). -/
def processPackages (base savePath : String) (w : World) :
    List String → Except PyErr (List (String × String))
  | [] => .ok []
  | p :: rest =>
    match getJsonDataForPackage base w p with
    | .error e => .error e
    | .ok none => processPackages base savePath w rest
    | .ok (some d) =>
      match saveToDisk w.ioFail savePath d with
      | .error e => .error e
      | .ok file =>
        match processPackages base savePath w rest with
        | .ok files => .ok (file :: files)
        | .error e => .error e

/-- `run` (lines 172-205): fetch the homepage; `if html_to_parse:` — `None` or
an empty body skips everything; otherwise extract the package list and, when it
is nonempty, process it. The result is the list of files written; exceptions
escaping the homepage fetch, the extractor, or the per-package loop abort the
run. -/
def run (s : PyPIScraper) (w : World) : Except PyErr (List (String × String)) :=
  match (getPypiHomepage (w.http s.pypi_source_page)).1 with
  | .error e => .error e
  | .ok none => .ok []
  | .ok (some html) =>
    if html = "" then .ok []
    else
      match getListOfPackagesToRetrieve (w.parse html) with
      | .error e => .error e
      | .ok pkgs =>
        if 0 < pkgs.length then processPackages s.pypi_source_page s.base_save_path w pkgs
        else .ok []

/-! ## The claims -/

/-- C4: for every HTTP response received by the homepage fetcher, a status in
[200, 300) makes it return the response body, and any status outside that range
makes it return `None` — absence, not an error. -/
theorem claim_C4_homepage_status (r : Response) (rest : List Outcome) :
    (200 ≤ r.status → r.status < 300 →
      (getPypiHomepage (.resp r :: rest)).1 = .ok (some r.content))
    ∧ (r.status < 200 ∨ 300 ≤ r.status →
      (getPypiHomepage (.resp r :: rest)).1 = .ok none) := by
  constructor
  · intro h1 h2
    have h : 200 ≤ r.status ∧ r.status < 300 := ⟨h1, h2⟩
    simp [getPypiHomepage, retryFetch, homepageAttempt, h]
  · intro h
    have h' : ¬ (200 ≤ r.status ∧ r.status < 300) := by omega
    simp [getPypiHomepage, retryFetch, homepageAttempt, h']

/-- Witness for C4 at a 200 and a 404 response. -/
theorem claim_C4_witness :
    (getPypiHomepage [.resp ⟨200, "<html>", none⟩]).1 = .ok (some "<html>")
    ∧ (getPypiHomepage [.resp ⟨404, "gone", none⟩]).1 = .ok none :=
  ⟨(claim_C4_homepage_status ⟨200, "<html>", none⟩ []).1 (by decide) (by decide),
   (claim_C4_homepage_status ⟨404, "gone", none⟩ []).2 (by decide)⟩

/-- C5: if the first N < 5 outcomes are connectivity errors and the next is a
2xx response, the retrying fetch succeeds with exactly N errors logged; five
consecutive connectivity errors make it fail terminally with the connection
error propagating; a response with a non-2xx status is never retried (the fetch
returns immediately with absence and no error logged, whatever outcomes follow). -/
theorem claim_C5_retry_semantics (N : Nat) (hN : N < 5) (body : String)
    (jb : Option Json) (rest rest2 rest3 : List Outcome) (r : Response)
    (hr : r.status < 200 ∨ 300 ≤ r.status) :
    getPypiHomepage (List.replicate N .connErr ++ .resp ⟨200, body, jb⟩ :: rest)
      = (.ok (some body), N)
    ∧ getPypiHomepage (List.replicate 5 .connErr ++ rest2) = (.error .connectionError, 5)
    ∧ getPypiHomepage (.resp r :: rest3) = (.ok none, 0) := by
  have hok : homepageAttempt (.resp ⟨200, body, jb⟩) = .ok (some body) := by
    simp [homepageAttempt]
  have hr' : ¬ (200 ≤ r.status ∧ r.status < 300) := by omega
  refine ⟨?_, ?_, ?_⟩
  · interval_cases N <;>
      simp [getPypiHomepage, List.replicate, retryFetch, homepageAttempt,
        homepageErrs, hok]
  · simp [getPypiHomepage, List.replicate, retryFetch, homepageAttempt, homepageErrs]
  · simp [getPypiHomepage, retryFetch, homepageAttempt, homepageErrs, hr']

/-- Witness for C5 at N = 2, with a trailing outcome ignored in the non-2xx case. -/
theorem claim_C5_witness :
    getPypiHomepage [.connErr, .connErr, .resp ⟨200, "ok", none⟩]
      = (.ok (some "ok"), 2)
    ∧ getPypiHomepage (List.replicate 5 .connErr) = (.error .connectionError, 5)
    ∧ getPypiHomepage [.resp ⟨500, "boom", none⟩, .connErr] = (.ok none, 0) := by
  have h := claim_C5_retry_semantics 2 (by decide) "ok" none [] []
    [.connErr] ⟨500, "boom", none⟩ (by decide)
  exact ⟨h.1, h.2.1, h.2.2⟩

/-- C3 as stated is false: an anchor with no link target is not skipped. On a
listing with one good anchor followed by one `href`-less anchor, the extractor
raises `AttributeError` (`None.split`) instead of returning the remaining name
(the comprehension's `if link is not None` guard tests the anchor, never its
`href`, and `find_all` yields no `None` anchors). -/
theorem claim_C3_counterexample :
    getListOfPackagesToRetrieve (some [⟨some "/pypi/alpha/1.0"⟩, ⟨none⟩])
      = .error .attributeError := rfl

/-- C3 amended: an anchor with no link target is not skipped — it makes the
extraction fail with `AttributeError`, even when every other anchor is fine, so
no names are returned at all. -/
theorem claim_C3_amended (pre post : List Anchor)
    (hpre : ∀ a ∈ pre, ∃ h, a.href = some h ∧ 2 < (pySplitSlash h).length) :
    getListOfPackagesToRetrieve (some (pre ++ ⟨none⟩ :: post))
      = .error .attributeError := by
  induction pre with
  | nil => rfl
  | cons a pre ih =>
    obtain ⟨h, hhref, hlen⟩ := hpre a (List.mem_cons_self a pre)
    have htail := ih (fun x hx => hpre x (List.mem_cons_of_mem a hx))
    simp only [getListOfPackagesToRetrieve] at htail ⊢
    simp [extractNames, hhref, hlen, htail]

/-- Witness for the amended C3. -/
theorem claim_C3_amended_witness :
    getListOfPackagesToRetrieve (some ([⟨some "/pypi/alpha/1.0"⟩] ++ ⟨none⟩ :: []))
      = .error .attributeError :=
  claim_C3_amended [⟨some "/pypi/alpha/1.0"⟩] []
    (by
      intro a ha
      rw [List.mem_singleton] at ha
      exact ⟨"/pypi/alpha/1.0", by rw [ha], by decide⟩)

/-- C7: for anchors that all have a link target with at least three
slash-delimited segments, the extractor returns exactly the third segment
(index 2) of each anchor's `href`, in listing order. -/
theorem claim_C7_extraction (anchors : List Anchor) (hrefs : List String)
    (h1 : anchors.map Anchor.href = hrefs.map some)
    (h2 : ∀ h ∈ hrefs, 2 < (pySplitSlash h).length) :
    getListOfPackagesToRetrieve (some anchors)
      = .ok (hrefs.map (fun h => (pySplitSlash h).getD 2 "")) := by
  simp only [getListOfPackagesToRetrieve]
  induction anchors generalizing hrefs with
  | nil =>
    have : hrefs = [] := by
      cases hrefs with
      | nil => rfl
      | cons h hs => simp at h1
    rw [this]
    rfl
  | cons a as ih =>
    cases hrefs with
    | nil => simp at h1
    | cons h hs =>
      simp only [List.map_cons, List.cons.injEq] at h1
      have hlen := h2 h (List.mem_cons_self h hs)
      have htail := ih hs h1.2 (fun x hx => h2 x (List.mem_cons_of_mem h hx))
      simp [extractNames, h1.1, hlen, htail]

/-- Witness for C7 on a two-anchor listing. -/
theorem claim_C7_witness :
    getListOfPackagesToRetrieve
      (some [⟨some "/pypi/alpha/1.0"⟩, ⟨some "/pypi/beta/2.3"⟩])
      = .ok ["alpha", "beta"] := by
  have h := claim_C7_extraction [⟨some "/pypi/alpha/1.0"⟩, ⟨some "/pypi/beta/2.3"⟩]
    ["/pypi/alpha/1.0", "/pypi/beta/2.3"] (by decide)
    (by
      intro x hx
      rcases List.mem_cons.mp hx with hx | hx
      · rw [hx]; decide
      · rw [List.mem_singleton] at hx
        rw [hx]; decide)
  rw [h]
  rfl

/-- C2 as stated is false: on a document lacking the canonical name field the
persister does not report failure. With an empty object (no `'info'` mapping at
all) and a writable disk, `_save_package_data_to_disk` succeeds — `.get`
returns `None`, the file name becomes `None.json`, and a complete, valid file
is written (contents `{}`), the method returning `True`. -/
theorem claim_C2_counterexample :
    saveToDisk (fun _ => false) "/data" (.obj [])
      = .ok ("/data/None.json", "\x7b\x7d") := rfl

/-- Reassociate a four-part file-name concatenation against its literal form. -/
theorem str_append_reassoc (base x y z w : String) (h : x ++ (y ++ z) = w) :
    base ++ x ++ y ++ z = base ++ w := by
  rw [String.append_assoc, String.append_assoc, h]

/-- C2 amended: a mapping document lacking the canonical name field is
persisted successfully (as `True`) under the literal file name `None.json`,
with the document's full serialization as contents; the persister reports
failure only by raising — when name extraction itself raises (the document or
its `'info'` value is not a mapping) or when opening the file fails — never by
returning `False`. -/
theorem claim_C2_amended (io : String → Bool) (base : String) (d d2 : Json)
    (e : PyErr) (hname : nameOf d = .ok none)
    (hio : io (base ++ "/None.json") = false) (hname2 : nameOf d2 = .error e) :
    saveToDisk io base d = .ok (base ++ "/None.json", dumps d)
    ∧ saveToDisk io base d2 = .error e := by
  have hstr : base ++ "/" ++ "None" ++ ".json" = base ++ "/None.json" :=
    str_append_reassoc base "/" "None" ".json" "/None.json" (by decide)
  constructor
  · simp [saveToDisk, hname, pyStr, hstr, hio]
  · simp [saveToDisk, hname2]

/-- Witness for the amended C2: a document with no name, and a non-mapping one. -/
theorem claim_C2_amended_witness :
    saveToDisk (fun _ => false) "/data" (.obj [("x", .int 1)])
      = .ok ("/data/None.json", dumps (.obj [("x", .int 1)]))
    ∧ saveToDisk (fun _ => false) "/data" (.str "oops") = .error .attributeError :=
  claim_C2_amended (fun _ => false) "/data" (.obj [("x", .int 1)]) (.str "oops")
    .attributeError rfl rfl rfl

/-- Helper: `sortAllKvs` is a per-value map, so it respects permutations. -/
theorem sortAllKvs_eq_map (kvs : List (String × Json)) :
    sortAllKvs kvs = kvs.map (fun kv => (kv.1, sortAll kv.2)) := by
  induction kvs with
  | nil => rfl
  | cons kv kvs ih =>
    rw [show sortAllKvs (kv :: kvs) = (kv.1, sortAll kv.2) :: sortAllKvs kvs from rfl, ih]
    rfl

/-- C6: persisting a canonical document whose `info.name` is the string `n`
writes `{base_save_path}/{n}.json` containing the document's deterministic
serialization; deserializing that file yields back exactly the input document;
and any permutation of the document's members serializes to byte-identical
contents, because the serialization sorts keys (`sort_keys=True`) with fixed
indentation and separators. -/
theorem claim_C6_persist_roundtrip (io : String → Bool) (base : String)
    (kvs : List (String × Json)) (n : String)
    (hc : canonical (.obj kvs) = true)
    (hn : nameOf (.obj kvs) = .ok (some (.str n)))
    (hio : io (base ++ "/" ++ n ++ ".json") = false) :
    saveToDisk io base (.obj kvs)
      = .ok (base ++ "/" ++ n ++ ".json", dumps (.obj kvs))
    ∧ loads (dumps (.obj kvs)) = some (.obj kvs)
    ∧ ∀ kvs2, kvs2.Perm kvs → dumps (.obj kvs2) = dumps (.obj kvs) := by
  refine ⟨?_, loads_dumps _ hc, ?_⟩
  · simp [saveToDisk, hn, pyStr, hio]
  · intro kvs2 hp
    have hsorted : keysSorted kvs = true := by
      have := hc
      simp only [canonical, Bool.and_eq_true] at this
      exact this.1
    have hnodup : (kvs.map Prod.fst).Nodup := keysSorted_nodup hsorted
    have hnodup' : ((sortAllKvs kvs).map Prod.fst).Nodup := by
      rw [sortAllKvs_eq_map, List.map_map]
      exact hnodup
    have hperm : (sortAllKvs kvs2).Perm (sortAllKvs kvs) := by
      rw [sortAllKvs_eq_map, sortAllKvs_eq_map]
      exact hp.map _
    have hsort := insertionSort_perm_eq (sortAllKvs kvs2) (sortAllKvs kvs) hperm
      (by
        rw [sortAllKvs_eq_map, List.map_map]
        exact (hp.map Prod.fst).nodup_iff.mpr hnodup)
    rw [dumps, dumps,
      show sortAll (.obj kvs2) = .obj (List.insertionSort keyPairLe (sortAllKvs kvs2)) from rfl,
      show sortAll (.obj kvs) = .obj (List.insertionSort keyPairLe (sortAllKvs kvs)) from rfl,
      hsort]

/-- Witness for C6: the flask-like document, permuted members included. -/
theorem claim_C6_witness :
    saveToDisk (fun _ => false) "/data"
        (.obj [("info", .obj [("author", .str "Armin"), ("name", .str "flask")])])
      = .ok ("/data/flask.json",
          dumps (.obj [("info", .obj [("author", .str "Armin"), ("name", .str "flask")])]))
    ∧ loads (dumps (.obj [("info", .obj [("author", .str "Armin"), ("name", .str "flask")])]))
      = some (.obj [("info", .obj [("author", .str "Armin"), ("name", .str "flask")])]) := by
  have h := claim_C6_persist_roundtrip (fun _ => false) "/data"
    [("info", .obj [("author", .str "Armin"), ("name", .str "flask")])] "flask"
    (by decide) rfl rfl
  exact ⟨h.1, h.2.1⟩

/-- C8: the package metadata fetcher requests exactly the URL
`{base}/{package}/json` — its result is determined by the world's outcomes at
that URL alone — and, on a response there, returns the decoded document
exactly when the status is 2xx and the body decoded, and absence otherwise. -/
theorem claim_C8_package_fetch (base : String) (w : World) (p : String)
    (r : Response) (rest : List Outcome)
    (h : w.http (base ++ "/" ++ p ++ "/json") = .resp r :: rest) :
    getJsonDataForPackage base w p
      = .ok (if 200 ≤ r.status ∧ r.status < 300 then r.jsonBody else none)
    ∧ ∀ w2 : World,
        w2.http (base ++ "/" ++ p ++ "/json") = w.http (base ++ "/" ++ p ++ "/json") →
        getJsonDataForPackage base w2 p = getJsonDataForPackage base w p := by
  constructor
  · simp [getJsonDataForPackage, packageUrl, h, retryFetch, packageAttempt]
  · intro w2 h2
    simp [getJsonDataForPackage, packageUrl, h2]

/-- Witness for C8: a 200 response with a decoded body, at the flask URL. -/
theorem claim_C8_witness :
    getJsonDataForPackage "https://pypi.python.org/pypi"
      { http := fun u =>
          if u = "https://pypi.python.org/pypi/flask/json" then
            [.resp ⟨200, "", some (.obj [("info", .obj [("name", .str "flask")])])⟩]
          else []
        parse := fun _ => none
        ioFail := fun _ => false }
      "flask"
      = .ok (some (.obj [("info", .obj [("name", .str "flask")])])) := by
  have h := (claim_C8_package_fetch "https://pypi.python.org/pypi"
    { http := fun u =>
        if u = "https://pypi.python.org/pypi/flask/json" then
          [.resp ⟨200, "", some (.obj [("info", .obj [("name", .str "flask")])])⟩]
        else []
      parse := fun _ => none
      ioFail := fun _ => false }
    "flask" ⟨200, "", some (.obj [("info", .obj [("name", .str "flask")])])⟩ []
    rfl).1
  rw [h]
  rfl

/-- C9: a 2xx homepage response with an empty body makes the run behave exactly
as an absent homepage does — no extraction, no package fetch, no file written —
because `run` tests the returned body for truthiness (`if html_to_parse:`), and
an empty byte string is falsy like `None`. -/
theorem claim_C9_empty_body (s : PyPIScraper) (w : World) (r : Response)
    (rest : List Outcome) (hhttp : w.http s.pypi_source_page = .resp r :: rest)
    (h1 : 200 ≤ r.status) (h2 : r.status < 300) (hempty : r.content = "") :
    run s w = .ok []
    ∧ ∀ (s2 : PyPIScraper) (w2 : World),
        (getPypiHomepage (w2.http s2.pypi_source_page)).1 = .ok none →
        run s2 w2 = .ok [] := by
  constructor
  · have hcl : 200 ≤ r.status ∧ r.status < 300 := ⟨h1, h2⟩
    simp [run, getPypiHomepage, retryFetch, homepageAttempt, hhttp, hcl, hempty]
  · intro s2 w2 habs
    simp [run, habs]

/-- Witness for C9 with a concrete empty 200 homepage and a concrete 404 world. -/
theorem claim_C9_witness :
    run {} { http := fun _ => [.resp ⟨200, "", none⟩]
             parse := fun _ => none
             ioFail := fun _ => false } = .ok []
    ∧ run {} { http := fun _ => [.resp ⟨404, "gone", none⟩]
               parse := fun _ => none
               ioFail := fun _ => false } = .ok [] := by
  have h := claim_C9_empty_body {}
    { http := fun _ => [.resp ⟨200, "", none⟩]
      parse := fun _ => none
      ioFail := fun _ => false }
    ⟨200, "", none⟩ [] rfl (by decide) (by decide) rfl
  exact ⟨h.1, h.2 {} _ rfl⟩

/-- C10: the existing-package lister removes the last five characters of every
regular file name, whatever its extension: a package persisted as `n + ".json"`
is listed as `n`, while a name not ending in `.json` comes back truncated
(e.g. `README.md` becomes `READ`). -/
theorem claim_C10_existing_packages (files : List String) (n : String) :
    getListOfExistingPackages files = files.map pyDropLast5
    ∧ ((n ++ ".json") ∈ files → n ∈ getListOfExistingPackages files)
    ∧ pyDropLast5 "README.md" = "READ" := by
  refine ⟨rfl, ?_, by decide⟩
  intro hmem
  have hdrop : pyDropLast5 (n ++ ".json") = n := by
    unfold pyDropLast5
    rw [String.data_append,
      show (".json" : String).data = ['.', 'j', 's', 'o', 'n'] from rfl,
      show (n.data ++ ['.', 'j', 's', 'o', 'n']).length - 5 = n.data.length from by simp,
      List.take_left]
  exact hdrop ▸ List.mem_map_of_mem pyDropLast5 hmem

/-- Witness for C10 on a concrete directory listing. -/
theorem claim_C10_witness :
    getListOfExistingPackages ["flask.json", "READ.me123"]
      = ["flask.json", "READ.me123"].map pyDropLast5
    ∧ "flask" ∈ getListOfExistingPackages ["flask.json", "READ.me123"] := by
  have h := claim_C10_existing_packages ["flask.json", "READ.me123"] "flask"
  exact ⟨h.1, h.2.1 (by decide)⟩

/-- The world refuting C1: the homepage lists two packages, both metadata
fetches would succeed, but writing the first package's file fails. -/
def c1World : World where
  http := fun u =>
    if u = "https://pypi.python.org/pypi" then [.resp ⟨200, "<html>", none⟩]
    else if u = "https://pypi.python.org/pypi/alpha/json" then
      [.resp ⟨200, "", some (.obj [("info", .obj [("name", .str "alpha")])])⟩]
    else [.resp ⟨200, "", some (.obj [("info", .obj [("name", .str "beta")])])⟩]
  parse := fun h =>
    if h = "<html>" then some [⟨some "/pypi/alpha/1.0"⟩, ⟨some "/pypi/beta/1.0"⟩]
    else none
  ioFail := fun p => p == "/usr/src/app/data/alpha.json"

/-- C1 as stated is false: a single package's disk-persist failure aborts the
whole run. In `c1World` the first of two listed packages fetches fine but its
file fails to open; `_save_package_data_to_disk` logs and re-raises (its bare
`raise`), nothing in `run`'s loop catches it, and the run ends with the
exception — the second package is never fetched and no count is logged, instead
of the failure being absorbed and the loop continuing. -/
theorem claim_C1_counterexample : run {} c1World = .error .ioError := rfl

/-- C1 amended: a package's metadata-fetch failure that yields absence (a
non-2xx status, a body that fails to decode, or a non-connectivity exception)
is absorbed: the package is skipped, counted as non-written, and the loop
proceeds to every remaining package. But a disk-persist failure (the persister
re-raises every exception), and a metadata fetch whose five attempts all end in
connectivity errors, propagate and abort the run. -/
theorem claim_C1_amended (base savePath : String) (w : World) (p : String)
    (rest : List String) :
    (getJsonDataForPackage base w p = .ok none →
      processPackages base savePath w (p :: rest) = processPackages base savePath w rest)
    ∧ (∀ d e, getJsonDataForPackage base w p = .ok (some d) →
        saveToDisk w.ioFail savePath d = .error e →
        processPackages base savePath w (p :: rest) = .error e)
    ∧ (∀ e, getJsonDataForPackage base w p = .error e →
        processPackages base savePath w (p :: rest) = .error e) := by
  refine ⟨?_, ?_, ?_⟩
  · intro h
    simp [processPackages, h]
  · intro d e hfetch hsave
    simp [processPackages, hfetch, hsave]
  · intro e h
    simp [processPackages, h]

/-- Witness for the amended C1 in `c1World`-like settings: a 404 package is
skipped and the loop continues; a failing save aborts with the error; five
connection errors abort with the connection error. -/
theorem claim_C1_amended_witness :
    (processPackages "b" "/d"
        { http := fun _ => [.resp ⟨404, "", none⟩]
          parse := fun _ => none
          ioFail := fun _ => false } ["p", "q"]
      = processPackages "b" "/d"
          { http := fun _ => [.resp ⟨404, "", none⟩]
            parse := fun _ => none
            ioFail := fun _ => false } ["q"])
    ∧ (processPackages "b" "/d"
        { http := fun _ => [.resp ⟨200, "", some (.obj [])⟩]
          parse := fun _ => none
          ioFail := fun _ => true } ["p", "q"]
      = .error .ioError)
    ∧ (processPackages "b" "/d"
        { http := fun _ => List.replicate 5 .connErr
          parse := fun _ => none
          ioFail := fun _ => false } ["p", "q"]
      = .error .connectionError) := by
  refine ⟨?_, ?_, ?_⟩
  · exact (claim_C1_amended "b" "/d"
      { http := fun _ => [.resp ⟨404, "", none⟩]
        parse := fun _ => none
        ioFail := fun _ => false } "p" ["q"]).1 rfl
  · exact (claim_C1_amended "b" "/d"
      { http := fun _ => [.resp ⟨200, "", some (.obj [])⟩]
        parse := fun _ => none
        ioFail := fun _ => true } "p" ["q"]).2.1 (.obj []) .ioError rfl rfl
  · exact (claim_C1_amended "b" "/d"
      { http := fun _ => List.replicate 5 .connErr
        parse := fun _ => none
        ioFail := fun _ => false } "p" ["q"]).2.2 .connectionError rfl
